import Mathlib

/-!
Verification of the RFC 6455 frame codec of the wsp repository.

The main model (`wsp` namespace) is a shallow embedding of the newest codec
iteration (class `Rfc6455Protocol` extending `stream.Transform`): the encoder
`_buildFrame`, the masker `_applyMask`, and the resumable decoder built from
`extractHeader`, `emitFrame` and the transform callback.  Buffers are modelled
as `List Nat` of byte values; JavaScript numbers that can leave the safe
integer range are modelled by `JsNum` (an exact rational plus the special
values), because the codec reads the 64-bit extended length with
`readDoubleBE`.

The `Proto` namespace embeds the older iteration in `Rfc6455Protocol.js`
(`processChunk` / `_write`), whose emission switch only forwards TEXT, PING
and CLOSE frames.
-/

namespace wsp

/-- Bit constants of the source. -/
def FIN : Nat := 128

def RSV : Nat := 112

def BYTE : Nat := 255

def MASK : Nat := 128

def OPCODE : Nat := 15

def LENGTH : Nat := 127

/-- `Number.MAX_SAFE_INTEGER`. -/
def MAX_SAFE_INTEGER : Nat := 2 ^ 53 - 1

/-- The `VALID_OPCODES` array (length 11); out-of-range reads yield
`undefined`, modelled by the default 0 of `List.getD`. -/
def VALID_OPCODES : List Nat := [1, 1, 1, 0, 0, 0, 0, 0, 1, 1, 1]

/-- The `FRAGMENTED_OPCODES` array (length 11). -/
def FRAGMENTED_OPCODES : List Nat := [1, 1, 1, 0, 0, 0, 0, 0, 0, 0, 0]

/-- `_applyMask(payload, mask, offset)`: XOR the bytes from `offset` on with
the 4-byte key; no-op when the mask is empty.  The in-place loop is modelled
by an index map. -/
def applyMask (payload mask : List Nat) (offset : Nat) : List Nat :=
  if mask = [] then payload
  else payload.mapIdx fun x v => if offset ≤ x then v ^^^ mask.getD ((x - offset) % 4) 0 else v

/-- A JavaScript number produced by `readDoubleBE`: an exact rational or one
of the special values. -/
inductive JsNum where
  | fin (q : ℚ)
  | inf
  | negInf
  | nan
deriving DecidableEq

/-- Big-endian value of a byte list. -/
def beVal (bs : List Nat) : Nat := bs.foldl (fun a b => a * 256 + b) 0

/-- The 8 big-endian base-256 digits of `n` (for `n < 2 ^ 64`). -/
def be8 (n : Nat) : List Nat :=
  [n / 2 ^ 56 % 256, n / 2 ^ 48 % 256, n / 2 ^ 40 % 256, n / 2 ^ 32 % 256,
   n / 2 ^ 24 % 256, n / 2 ^ 16 % 256, n / 2 ^ 8 % 256, n % 256]

/-- `readDoubleBE`: decode 8 bytes as a big-endian IEEE 754 binary64 value. -/
def jsReadDoubleBE8 (bs : List Nat) : JsNum :=
  let bits : Nat := beVal (bs.take 8)
  let sign : Nat := bits / 2 ^ 63
  let expField : Nat := bits / 2 ^ 52 % 2 ^ 11
  let mantissa : Nat := bits % 2 ^ 52
  if expField = 2047 then
    if mantissa = 0 then (if sign = 1 then JsNum.negInf else JsNum.inf) else JsNum.nan
  else
    let sgn : ℚ := if sign = 1 then -1 else 1
    let mant : ℚ := if expField = 0 then (mantissa : ℚ) else 2 ^ 52 + (mantissa : ℚ)
    let ex : ℤ := (if expField = 0 then 1 else (expField : ℤ)) - 1075
    JsNum.fin (sgn * mant * (2 : ℚ) ^ ex)

/-- `writeDoubleBE` restricted to the arguments the codec passes to it:
integer values in `(65535, 2 ^ 53)`, which are exactly representable. -/
def jsWriteDoubleBE8 (n : Nat) : List Nat :=
  let e := Nat.log2 n
  be8 ((e + 1023) * 2 ^ 52 + (n * 2 ^ (52 - e) - 2 ^ 52))

/-- JavaScript `>=` against a rational bound (false on NaN). -/
def jsGe (v : JsNum) (b : ℚ) : Bool :=
  match v with
  | JsNum.fin q => decide (b ≤ q)
  | JsNum.inf => true
  | JsNum.negInf => false
  | JsNum.nan => false

/-- `Buffer.alloc(size)`: a size that is not `>= 0` (a negative value or
`NaN`) or is `+Infinity` raises a `RangeError`, modelled as `none`; a
nonnegative fractional size passes the check and is truncated by the
`Uint8Array` length conversion (`ToIndex`).  The `kMaxLength` upper bound is
not modelled; no statement below allocates near it. -/
def toBufferSize (v : JsNum) : Option Nat :=
  match v with
  | JsNum.fin q => if 0 ≤ q then some (⌊q⌋).toNat else none
  | _ => none

/-- `Buffer.prototype.slice(start, end)` with the JavaScript clamping of
negative and out-of-range indices. -/
def jsSlice (l : List Nat) (s e : Int) : List Nat :=
  let len : Int := l.length
  let s' := (if s < 0 then max (len + s) 0 else min s len).toNat
  let e' := (if e < 0 then max (len + e) 0 else min e len).toNat
  (l.take e').drop s'

/-- `Buffer.alloc(4)` followed by `src.copy`: at most 4 bytes of `src`,
zero-padded to length 4. -/
def buf4 (src : List Nat) : List Nat := src.take 4 ++ List.replicate (4 - src.length) 0

/-- The error kinds the decoder can surface. -/
inductive DecErr where
  | rsvNotZero
  | invalidOpcode
  | expectedFinal
  | unsupportedLength
  | allocFailure
deriving DecidableEq

/-- The header record populated by `extractHeader`. -/
structure Header where
  reservedBitsZero : Bool
  isFinal : Bool
  opcode : Nat
  validOpcode : Bool
  isContinuation : Bool
  isMasked : Bool
  payloadLength : Nat
  payloadOffset : Nat
  mask : List Nat
deriving DecidableEq

/-- Outcome of one header-parsing pass over the buffered bytes. -/
inductive ParseResult where
  | needMore
  | fail (e : DecErr)
  | complete (hdr : Header)
  | midFrame (hdr : Header)
deriving DecidableEq

/-- Common tail of `extractHeader` after the payload length is known: wait for
the mask bytes, extract the mask, allocate the payload and classify the frame
as complete or still missing payload bytes. -/
def finishHeader (hb : List Nat) (reservedBitsZero isFinal : Bool) (opcode : Nat)
    (validOpcode isContinuation isMasked : Bool) (plJs : JsNum) (payloadOffset : Nat) :
    ParseResult :=
  if hb.length < payloadOffset then ParseResult.needMore
  else
    let mask := buf4 (jsSlice hb ((payloadOffset : Int) - 4) (payloadOffset : Int))
    match toBufferSize plJs with
    | none => ParseResult.fail DecErr.allocFailure
    | some payloadLength =>
      let hdr : Header :=
        ⟨reservedBitsZero, isFinal, opcode, validOpcode, isContinuation, isMasked,
          payloadLength, payloadOffset, mask⟩
      if payloadLength + payloadOffset ≤ hb.length then ParseResult.complete hdr
      else ParseResult.midFrame hdr

/-- The header-parsing pass of `extractHeader`, as a pure function of the
buffered bytes. -/
def parseOne (hb : List Nat) : ParseResult :=
  if hb.length < 2 then ParseResult.needMore
  else
    let b0 := hb.getD 0 0
    let b1 := hb.getD 1 0
    let reservedBitsZero := b0 &&& RSV == 0
    let isFinal := b0 &&& FIN == FIN
    let opcode := b0 &&& OPCODE
    let validOpcode := VALID_OPCODES.getD opcode 0 == 1
    let isContinuation := opcode == 0
    let isMasked := b1 &&& MASK == MASK
    let len7 := b1 &&& LENGTH
    let payloadOffset := if isMasked then 6 else 2
    if !reservedBitsZero then ParseResult.fail DecErr.rsvNotZero
    else if !validOpcode then ParseResult.fail DecErr.invalidOpcode
    else if FRAGMENTED_OPCODES.getD opcode 0 != 1 && !isFinal then
      ParseResult.fail DecErr.expectedFinal
    else if len7 == 126 then
      let payloadOffset := payloadOffset + 2
      if hb.length < payloadOffset then ParseResult.needMore
      else
        finishHeader hb reservedBitsZero isFinal opcode validOpcode isContinuation isMasked
          (JsNum.fin ((hb.getD 2 0 * 256 + hb.getD 3 0 : Nat) : ℚ)) payloadOffset
    else if len7 == 127 then
      let payloadOffset := payloadOffset + 8
      if hb.length < payloadOffset then ParseResult.needMore
      else
        let v := jsReadDoubleBE8 ((hb.drop 2).take 8)
        if jsGe v (MAX_SAFE_INTEGER : ℚ) then ParseResult.fail DecErr.unsupportedLength
        else
          finishHeader hb reservedBitsZero isFinal opcode validOpcode isContinuation isMasked
            v payloadOffset
    else
      finishHeader hb reservedBitsZero isFinal opcode validOpcode isContinuation isMasked
        (JsNum.fin (len7 : ℚ)) payloadOffset

/-- Events observable from one write: frame emissions to the listener, and
errors surfaced on the error channel. -/
inductive Ev where
  | frame (opcode : Nat) (payload : List Nat)
  | err (e : DecErr)
deriving DecidableEq

/-- The mutable decoder fields of the protocol object.  Fields the source
leaves populated but never reads again before overwriting them (for example
the partially filled header after an early return) are kept at their initial
values. -/
structure DecState where
  state : Nat
  headerBuffer : List Nat
  header : Option Header
  payload : List Nat
  bytesCopied : Nat
deriving DecidableEq

/-- The state restored by `_initialize`. -/
def initState : DecState := ⟨0, [], none, [], 0⟩

/-- `extractHeader` on a buffer, fuel-bounded recursion on the remainder of a
completed frame.  Every completed frame consumes at least two bytes, so a fuel
of `hb.length` is always sufficient (see `go`). -/
def goFuel (fuel : Nat) (hb : List Nat) : DecState × List Ev :=
  match fuel with
  | 0 => (⟨0, hb, none, [], 0⟩, [])
  | fuel + 1 =>
    match parseOne hb with
    | ParseResult.needMore => (⟨0, hb, none, [], 0⟩, [])
    | ParseResult.fail e => (⟨0, hb, none, [], 0⟩, [Ev.err e])
    | ParseResult.midFrame hdr =>
      let part := (hb.drop hdr.payloadOffset).take hdr.payloadLength
      (⟨1, hb, some hdr, part ++ List.replicate (hdr.payloadLength - part.length) 0,
        hb.length - hdr.payloadOffset⟩, [])
    | ParseResult.complete hdr =>
      let body := (hb.drop hdr.payloadOffset).take hdr.payloadLength
      let outPayload := if hdr.isMasked then applyMask body hdr.mask 0 else body
      let frameEnd := hdr.payloadLength + hdr.payloadOffset
      if frameEnd < hb.length then
        let r := goFuel fuel (hb.drop frameEnd)
        (r.1, Ev.frame hdr.opcode outPayload :: r.2)
      else (initState, [Ev.frame hdr.opcode outPayload])

/-- `extractHeader` invoked on a fresh header pass: parse the buffered bytes,
emit every completed frame, and recurse on the remainder. -/
def go (hb : List Nat) : DecState × List Ev := goFuel hb.length hb

/-- `chunk.copy(tgt, tStart, 0, src.length)`. -/
def bufCopy (tgt : List Nat) (tStart : Nat) (src : List Nat) : List Nat :=
  let n := min src.length (tgt.length - tStart)
  tgt.take tStart ++ src.take n ++ tgt.drop (tStart + n)

/-- The transform callback: one `_write` of a chunk into the decoder. -/
def transform (s : DecState) (chunk : List Nat) : DecState × List Ev :=
  match s.state, s.header with
  | 1, some hdr =>
    let j := min chunk.length (hdr.payloadLength - s.bytesCopied)
    let payload := bufCopy s.payload s.bytesCopied (chunk.take j)
    let bytesCopied := s.bytesCopied + j
    let remainder := chunk.drop j
    if bytesCopied = hdr.payloadLength then
      let outPayload := if hdr.isMasked then applyMask payload hdr.mask 0 else payload
      if 0 < remainder.length then
        let r := go remainder
        (r.1, Ev.frame hdr.opcode outPayload :: r.2)
      else (initState, [Ev.frame hdr.opcode outPayload])
    else ({ s with payload := payload, bytesCopied := bytesCopied }, [])
  | _, _ => go (s.headerBuffer ++ chunk)

/-- Feed a list of chunks in order, collecting all events. -/
def feedChunks (s : DecState) (cs : List (List Nat)) : DecState × List Ev :=
  cs.foldl (fun p c => let r := transform p.1 c; (r.1, p.2 ++ r.2)) (s, [])

/-- `_buildFrame(buffer, opcode)`.  The random 4-byte mask drawn from
`crypto.randomBytes` is passed in explicitly; `none` models the
`Unsupported UInt64 length` error path (no frame is returned). -/
def buildFrame (isMasking : Bool) (mask : List Nat) (buffer : List Nat) (opcode : Nat) :
    Option (List Nat) :=
  let length := buffer.length
  if MAX_SAFE_INTEGER ≤ length then none
  else
    let header := if length ≤ 125 then 2 else if length ≤ 65535 then 4 else 10
    let offset := header + (if isMasking then 4 else 0)
    let masked := if isMasking then MASK else 0
    let front : List Nat :=
      if length ≤ 125 then [FIN ||| opcode, masked ||| length]
      else if length ≤ 65535 then [FIN ||| opcode, masked ||| 126, length / 256, length &&& BYTE]
      else [FIN ||| opcode, masked ||| 127] ++ jsWriteDoubleBE8 length
    let raw := front ++ (if isMasking then mask else []) ++ buffer
    some (if isMasking then applyMask raw mask offset else raw)

/-- A frame of the stream, described by its fields. -/
structure FrameSpec where
  fin : Bool
  opcode : Nat
  masked : Bool
  mask : List Nat
  payload : List Nat
deriving DecidableEq

/-- The 7-bit length field for a payload length. -/
def lenField (n : Nat) : Nat := if n ≤ 125 then n else if n ≤ 65535 then 126 else 127

/-- The extended length bytes for a payload length (the codec serializes the
64-bit form with `writeDoubleBE`). -/
def extBytes (n : Nat) : List Nat :=
  if n ≤ 125 then [] else if n ≤ 65535 then [n / 256, n &&& BYTE] else jsWriteDoubleBE8 n

/-- Number of header bytes of the serialized frame. -/
def FrameSpec.headerLen (f : FrameSpec) : Nat :=
  2 + (extBytes f.payload.length).length + (if f.masked then 4 else 0)

/-- The payload bytes as they appear on the wire (masked if the frame is). -/
def FrameSpec.wireBody (f : FrameSpec) : List Nat :=
  if f.masked then applyMask f.payload f.mask 0 else f.payload

/-- The complete serialized frame. -/
def FrameSpec.bytes (f : FrameSpec) : List Nat :=
  [(if f.fin then FIN else 0) ||| f.opcode,
   (if f.masked then MASK else 0) ||| lenField f.payload.length] ++
    extBytes f.payload.length ++ (if f.masked then f.mask else []) ++ f.wireBody

/-- Total length of the serialized frame. -/
def FrameSpec.len (f : FrameSpec) : Nat := f.headerLen + f.payload.length

/-- A frame the decoder accepts: a known opcode, final unless it is a data
opcode, a 4-byte mask when masked, byte-valued content, and a payload length
below the `readDoubleBE` ceiling. -/
def FrameSpec.Valid (f : FrameSpec) : Prop :=
  (f.opcode = 0 ∨ f.opcode = 1 ∨ f.opcode = 2 ∨ f.opcode = 8 ∨ f.opcode = 9 ∨ f.opcode = 10) ∧
    (¬(f.opcode = 0 ∨ f.opcode = 1 ∨ f.opcode = 2) → f.fin = true) ∧
    (f.masked = true → f.mask.length = 4 ∧ ∀ b ∈ f.mask, b < 256) ∧
    (∀ b ∈ f.payload, b < 256) ∧ f.payload.length < MAX_SAFE_INTEGER

instance : DecidablePred FrameSpec.Valid := fun f => by
  unfold FrameSpec.Valid; infer_instance

/-- Concatenation of serialized frames. -/
def streamBytes (fs : List FrameSpec) : List Nat := (fs.map FrameSpec.bytes).flatten

/-- The listener notification a frame produces. -/
def idealEv (f : FrameSpec) : Ev := Ev.frame f.opcode f.payload

/-- Advance a stream position by `n` bytes: the frames completed on the way,
the frames still pending, and the byte offset into the first pending frame. -/
def adv (gs : List FrameSpec) (n : Nat) : List FrameSpec × List FrameSpec × Nat :=
  match gs with
  | [] => ([], [], n)
  | g :: rest =>
    if n < g.len then ([], g :: rest, n)
    else
      let r := adv rest (n - g.len)
      (g :: r.1, r.2)

/-- The bytes of the stream not yet delivered when `k` bytes of the first
pending frame have been fed. -/
def remBytes (gs : List FrameSpec) (k : Nat) : List Nat :=
  match gs with
  | [] => []
  | g :: rest => (FrameSpec.bytes g).drop k ++ streamBytes rest

/-- The decoder state that corresponds to having fed `k` bytes of the first
frame of `gs` (and nothing beyond).  In the payload phase the retained
`headerBuffer` depends on how the bytes were chunked but is never read again,
so it is left unconstrained. -/
def MidP (gs : List FrameSpec) (k : Nat) (s : DecState) : Prop :=
  match gs with
  | [] => k = 0 ∧ s = initState
  | g :: _ =>
    k < g.len ∧
      ((k < g.headerLen ∧ s = ⟨0, (FrameSpec.bytes g).take k, none, [], 0⟩) ∨
        (g.headerLen ≤ k ∧ s.state = 1 ∧ s.bytesCopied = k - g.headerLen ∧
          s.payload = g.wireBody.take (k - g.headerLen) ++
            List.replicate (g.payload.length - (k - g.headerLen)) 0 ∧
          ∃ hdr, s.header = some hdr ∧ hdr.opcode = g.opcode ∧ hdr.isMasked = g.masked ∧
            hdr.payloadLength = g.payload.length ∧ (g.masked = true → hdr.mask = g.mask)))

end wsp

namespace Proto

/-!
Model of the older iteration in `Rfc6455Protocol.js`: `processChunk` parses a
whole frame at offset `i` of the chunk, emits only TEXT, PING and CLOSE
frames, and continues through the driver loop of `_write`.  The module-level
`itr` counter aborts after 100 iterations.  `console.log` output is ignored.
-/

/-- Errors `processChunk` can pass to its callback. -/
inductive PErr where
  | maxDepth
  | rsvNotZero
  | unknownOpcode
  | expectedFinal
deriving DecidableEq

/-- Result of one `processChunk` call: an error, or the emissions of the frame
together with the offset handed to the callback. -/
inductive PResult where
  | fail (e : PErr)
  | ok (emits : List (Nat × List Nat)) (next : Nat)
deriving DecidableEq

/-- `processChunk(self, chunk_, i, cb)` with the incremented `itr` value
passed in explicitly. -/
def processChunk (itr : Nat) (chunk' : List Nat) (i : Nat) : PResult :=
  if 100 < itr then PResult.fail PErr.maxDepth
  else
    let chunk := chunk'.drop i
    let b0 := chunk.getD 0 0
    let b1 := chunk.getD 1 0
    let reservedBitsZero := b0 &&& wsp.RSV == 0
    let isFinal := b0 &&& wsp.FIN == wsp.FIN
    let opcode := b0 &&& wsp.OPCODE
    let validOpcode := wsp.VALID_OPCODES.getD opcode 0 == 1
    let isContinuation := opcode == 0
    let isMasked := b1 &&& wsp.MASK == wsp.MASK
    let len7 := b1 &&& wsp.LENGTH
    if !reservedBitsZero then PResult.fail PErr.rsvNotZero
    else if !validOpcode then PResult.fail PErr.unknownOpcode
    else if wsp.FRAGMENTED_OPCODES.getD opcode 0 != 1 && !isFinal then
      PResult.fail PErr.expectedFinal
    else
      let payloadLength :=
        if len7 == 126 then chunk.getD 2 0 * 256 + chunk.getD 3 0
        else if len7 == 127 then
          chunk.getD 6 0 * 2 ^ 24 + chunk.getD 7 0 * 2 ^ 16 + chunk.getD 8 0 * 2 ^ 8 +
            chunk.getD 9 0
        else len7
      let payloadOffset : Nat := if len7 == 126 then 4 else if len7 == 127 then 10 else 2
      let payloadOffset := if isMasked then payloadOffset + 4 else payloadOffset
      let mask := if isMasked then wsp.buf4 (chunk.drop (payloadOffset - 4) |>.take 4) else []
      if isContinuation && !isFinal then PResult.ok [] payloadOffset
      else
        let src := (chunk.drop payloadOffset).take payloadLength
        let payload := src ++ List.replicate (payloadLength - src.length) 0
        let payload := if isMasked then wsp.applyMask payload mask 0 else payload
        let emits := if opcode = 1 ∨ opcode = 9 ∨ opcode = 8 then [(opcode, payload)] else []
        PResult.ok emits (i + (payloadLength + payloadOffset))

/-- The `done` driver of `_write`: keep calling `processChunk` while bytes
remain.  An error handed to `done` makes the length test false, so the write
simply stops.  The fuel is bounded by the `itr` guard and is threaded
structurally. -/
def writeLoop (fuel itr : Nat) (chunk : List Nat) (i : Nat) :
    List (Nat × List Nat) × Option PErr :=
  match fuel with
  | 0 => ([], some PErr.maxDepth)
  | fuel + 1 =>
    match processChunk (itr + 1) chunk i with
    | PResult.fail e => ([], some e)
    | PResult.ok emits next =>
      if 0 < chunk.length - next then
        let r := writeLoop fuel (itr + 1) chunk next
        (emits ++ r.1, r.2)
      else (emits, none)

/-- `_write` on a fresh protocol object (the global `itr` is 0). -/
def write (chunk : List Nat) : List (Nat × List Nat) × Option PErr :=
  writeLoop 102 0 chunk 0

end Proto

namespace wsp

theorem applyMask_length (p m : List Nat) (o : Nat) : (applyMask p m o).length = p.length := by
  unfold applyMask
  split <;> simp

theorem applyMask_getElem (p m : List Nat) (o i : Nat) (hm : m ≠ []) (h : i < p.length)
    (h' : i < (applyMask p m o).length) :
    (applyMask p m o)[i] = if o ≤ i then p[i] ^^^ m.getD ((i - o) % 4) 0 else p[i] := by
  unfold applyMask
  simp only [if_neg hm]
  have h2 : i < (p.mapIdx fun x v => if o ≤ x then v ^^^ m.getD ((x - o) % 4) 0 else v).length := by
    simpa using h
  rw [show (p.mapIdx fun x v => if o ≤ x then v ^^^ m.getD ((x - o) % 4) 0 else v)[i] =
      (p.mapIdx fun x v => if o ≤ x then v ^^^ m.getD ((x - o) % 4) 0 else v).get ⟨i, h2⟩ from rfl,
    List.get_mapIdx p _ i h]
  rfl

/-- Masking twice with the same key restores the bytes. -/
theorem applyMask_applyMask (p m : List Nat) (o : Nat) :
    applyMask (applyMask p m o) m o = p := by
  rcases eq_or_ne m [] with h | h
  · unfold applyMask
    simp [h]
  · apply List.ext_getElem (by simp [applyMask_length])
    intro i h1 h2
    have hp : i < p.length := by simpa [applyMask_length] using h1
    have hq : i < (applyMask p m o).length := by simpa [applyMask_length] using hp
    rw [applyMask_getElem _ _ _ _ h hq h1, applyMask_getElem _ _ _ _ h hp hq]
    split
    · rw [Nat.xor_cancel_right]
    · rfl

/-- Masking a frame from the payload offset on is masking the payload. -/
theorem applyMask_append (A p m : List Nat) :
    applyMask (A ++ p) m A.length = A ++ applyMask p m 0 := by
  rcases eq_or_ne m [] with h | h
  · unfold applyMask
    simp [h]
  · apply List.ext_getElem (by simp [applyMask_length])
    intro i h1 h2
    have hi : i < (A ++ p).length := by simpa [applyMask_length] using h1
    rw [applyMask_getElem _ _ _ _ h hi h1]
    by_cases hA : i < A.length
    · rw [if_neg (by omega), List.getElem_append_left hA, List.getElem_append_left hA]
    · have hA' : A.length ≤ i := by omega
      have hp : i - A.length < p.length := by
        have := hi
        simp only [List.length_append] at this
        omega
      have hp' : i - A.length < (applyMask p m 0).length := by
        simpa [applyMask_length] using hp
      rw [if_pos hA', List.getElem_append_right hA', List.getElem_append_right hA',
        applyMask_getElem _ _ _ _ h hp hp', if_pos (Nat.zero_le _)]
      simp

theorem applyMask_zero_take (p m : List Nat) (k : Nat) :
    (applyMask p m 0).take k = applyMask (p.take k) m 0 := by
  rcases eq_or_ne m [] with h | h
  · unfold applyMask
    simp [h]
  · apply List.ext_getElem (by simp [applyMask_length])
    intro i h1 h2
    have hip : i < p.length := by
      have := h1
      simp [applyMask_length] at this
      omega
    have h3 : i < (applyMask p m 0).length := by simpa [applyMask_length] using hip
    have hit : i < (p.take k).length := by simpa [applyMask_length] using h2
    rw [List.getElem_take, applyMask_getElem _ _ _ _ h hip h3,
      applyMask_getElem _ _ _ _ h hit h2, List.getElem_take]

/-- Packing of the first header byte, as the decoder re-reads it. -/
theorem packB0 (b : Bool) (op : Nat) (h : op < 16) :
    ((if b then FIN else 0) ||| op) &&& RSV = 0 ∧
      ((if b then FIN else 0) ||| op) &&& OPCODE = op ∧
      (((if b then FIN else 0) ||| op) &&& FIN == FIN) = b := by
  cases b <;> revert op <;> decide

/-- Packing of the second header byte, as the decoder re-reads it. -/
theorem packB1 (b : Bool) (L : Nat) (h : L ≤ 127) :
    (((if b then MASK else 0) ||| L) &&& MASK == MASK) = b ∧
      ((if b then MASK else 0) ||| L) &&& LENGTH = L := by
  cases b <;> revert L <;> decide

theorem beVal_be8 (n : Nat) (h : n < 2 ^ 64) : beVal (be8 n) = n := by
  simp only [beVal, be8, List.foldl]
  omega

theorem length_be8 (n : Nat) : (be8 n).length = 8 := rfl

/-- `readDoubleBE` on the digits of a normal positive bit pattern. -/
theorem jsReadDoubleBE8_normal (E Mv : Nat) (hE0 : 0 < E) (hE : E < 2047) (hM : Mv < 2 ^ 52) :
    jsReadDoubleBE8 (be8 (E * 2 ^ 52 + Mv)) =
      JsNum.fin ((2 ^ 52 + (Mv : ℚ)) * (2 : ℚ) ^ ((E : ℤ) - 1075)) := by
  have hp : (0 : Nat) < 2 ^ 52 := by positivity
  have hbits64 : E * 2 ^ 52 + Mv < 2 ^ 64 := by
    have : E * 2 ^ 52 ≤ 2046 * 2 ^ 52 := Nat.mul_le_mul_right _ (by omega)
    norm_num at this ⊢
    omega
  have hsign : (E * 2 ^ 52 + Mv) / 2 ^ 63 = 0 := by
    apply Nat.div_eq_of_lt
    have : E * 2 ^ 52 ≤ 2046 * 2 ^ 52 := Nat.mul_le_mul_right _ (by omega)
    norm_num at this ⊢
    omega
  have hexp : (E * 2 ^ 52 + Mv) / 2 ^ 52 = E := by
    rw [Nat.mul_comm, Nat.mul_add_div hp, Nat.div_eq_of_lt hM, Nat.add_zero]
  have hmant : (E * 2 ^ 52 + Mv) % 2 ^ 52 = Mv := by
    rw [Nat.mul_comm, Nat.mul_add_mod, Nat.mod_eq_of_lt hM]
  have htake : (be8 (E * 2 ^ 52 + Mv)).take 8 = be8 (E * 2 ^ 52 + Mv) :=
    List.take_of_length_le (le_of_eq (length_be8 _))
  have hE2 : E % 2 ^ 11 = E := Nat.mod_eq_of_lt (by omega)
  simp only [jsReadDoubleBE8, htake, beVal_be8 _ hbits64, hsign, hexp, hmant, hE2]
  rw [if_neg (by omega), if_neg (by omega), if_neg (by omega), if_neg (by omega)]
  rw [one_mul]

/-- An integer written with `writeDoubleBE` is read back exactly by
`readDoubleBE` in the range the codec uses. -/
theorem jsRead_jsWrite (n : Nat) (h1 : 65535 < n) (h2 : n < 2 ^ 53) :
    jsReadDoubleBE8 (jsWriteDoubleBE8 n) = JsNum.fin (n : ℚ) := by
  have hn0 : n ≠ 0 := by omega
  set e := Nat.log2 n with he
  have he1 : 16 ≤ e := (Nat.le_log2 hn0).2 (by norm_num; omega)
  have he2 : e ≤ 52 := by
    have := (Nat.log2_lt hn0).2 h2
    omega
  have hlow : 2 ^ e ≤ n := Nat.log2_self_le hn0
  have hhigh : n < 2 ^ (e + 1) := Nat.lt_log2_self
  have hm1 : 2 ^ 52 ≤ n * 2 ^ (52 - e) := by
    calc (2 : Nat) ^ 52 = 2 ^ e * 2 ^ (52 - e) := by rw [← pow_add]; congr 1; omega
    _ ≤ n * 2 ^ (52 - e) := Nat.mul_le_mul_right _ hlow
  have hm2 : n * 2 ^ (52 - e) < 2 ^ 53 := by
    calc n * 2 ^ (52 - e) < 2 ^ (e + 1) * 2 ^ (52 - e) :=
          mul_lt_mul_of_pos_right hhigh (by positivity)
    _ = 2 ^ 53 := by rw [← pow_add]; congr 1; omega
  have hMlt : n * 2 ^ (52 - e) - 2 ^ 52 < 2 ^ 52 := by omega
  have hw : jsWriteDoubleBE8 n = be8 ((e + 1023) * 2 ^ 52 + (n * 2 ^ (52 - e) - 2 ^ 52)) := rfl
  rw [hw, jsReadDoubleBE8_normal (e + 1023) _ (by omega) (by omega) hMlt]
  congr 1
  have hcast : ((2 : ℚ) ^ 52 + ((n * 2 ^ (52 - e) - 2 ^ 52 : Nat) : ℚ)) =
      (n : ℚ) * 2 ^ (52 - e) := by
    rw [Nat.cast_sub hm1]
    push_cast
    ring
  rw [hcast]
  have hez : ((e + 1023 : Nat) : ℤ) - 1075 = -((52 - e : Nat) : ℤ) := by omega
  rw [hez, zpow_neg, zpow_natCast]
  rw [mul_assoc, mul_inv_cancel₀ (by positivity), mul_one]

theorem toBufferSize_natCast (n : Nat) : toBufferSize (JsNum.fin (n : ℚ)) = some n := by
  simp only [toBufferSize]
  rw [if_pos (by positivity), Int.floor_natCast, Int.toNat_natCast]

theorem jsGe_natCast (n b : Nat) : jsGe (JsNum.fin (n : ℚ)) (b : ℚ) = decide (b ≤ n) := by
  simp [jsGe]

theorem getD_take_eq (l : List Nat) (n i : Nat) (h : i < n) :
    (l.take n).getD i 0 = l.getD i 0 := by
  simp only [List.getD_eq_getElem?_getD, List.getElem?_take, if_pos h]

theorem wireBody_length (f : FrameSpec) : f.wireBody.length = f.payload.length := by
  unfold FrameSpec.wireBody
  split <;> simp [applyMask_length]

theorem extBytes_length (n : Nat) :
    (extBytes n).length = if n ≤ 125 then 0 else if n ≤ 65535 then 2 else 8 := by
  unfold extBytes
  split
  · simp
  · split <;> simp [jsWriteDoubleBE8, length_be8]

theorem maskPart_length (f : FrameSpec) (hm : f.masked = true → f.mask.length = 4) :
    (if f.masked then f.mask else []).length = if f.masked then 4 else 0 := by
  rcases hc : f.masked with _ | _
  · simp
  · simp [hm hc]

theorem bytes_length (f : FrameSpec) (hm : f.masked = true → f.mask.length = 4) :
    f.bytes.length = f.len := by
  unfold FrameSpec.bytes FrameSpec.len FrameSpec.headerLen
  simp only [List.length_append, List.length_cons, List.length_nil, wireBody_length,
    maskPart_length f hm]

theorem lenField_le (n : Nat) : lenField n ≤ 127 := by
  unfold lenField
  split
  · omega
  · split <;> omega

/-- `Buffer.slice` with in-range nonnegative indices. -/
theorem jsSlice_nat (l : List Nat) (a b : Nat) (hbl : b ≤ l.length) :
    jsSlice l (a : Int) (b : Int) = (l.take b).drop a := by
  simp only [jsSlice]
  have h1 : ¬((a : Int) < 0) := by omega
  have h2 : ¬((b : Int) < 0) := by omega
  rw [if_neg h1, if_neg h2]
  have e1 : ((b : Int) ⊓ (l.length : Int)).toNat = b := by omega
  have e2 : ((a : Int) ⊓ (l.length : Int)).toNat = min a l.length := by omega
  rw [e1, e2]
  rcases le_or_lt a l.length with h4 | h4
  · rw [min_eq_left h4]
  · rw [min_eq_right (le_of_lt h4)]
    rw [List.drop_eq_nil_of_le (le_trans (List.length_take_le _ _) hbl),
      List.drop_eq_nil_of_le (le_trans (List.length_take_le _ _) (by omega))]

theorem valid_opcode_lt (f : FrameSpec) (hf : f.Valid) : f.opcode < 16 := by
  rcases hf.1 with h | h | h | h | h | h <;> omega

theorem valid_opcode_pass (f : FrameSpec) (hf : f.Valid) :
    (VALID_OPCODES.getD f.opcode 0 == 1) = true := by
  rcases hf.1 with h | h | h | h | h | h <;> rw [h] <;> rfl

theorem valid_frag_pass (f : FrameSpec) (hf : f.Valid) :
    (FRAGMENTED_OPCODES.getD f.opcode 0 != 1 && !f.fin) = false := by
  by_cases h : f.opcode = 0 ∨ f.opcode = 1 ∨ f.opcode = 2
  · rcases h with h | h | h <;> rw [h] <;> rfl
  · rw [hf.2.1 h]
    simp

theorem headerLen_ge2 (f : FrameSpec) : 2 ≤ f.headerLen := by
  unfold FrameSpec.headerLen
  omega

theorem headerLen_le_len (f : FrameSpec) : f.headerLen ≤ f.len := by
  unfold FrameSpec.len
  omega

theorem bytes_getD0 (f : FrameSpec) : f.bytes.getD 0 0 = (if f.fin then FIN else 0) ||| f.opcode :=
  rfl

theorem bytes_getD1 (f : FrameSpec) :
    f.bytes.getD 1 0 = (if f.masked then MASK else 0) ||| lenField f.payload.length := rfl

theorem finishHeader_spec (hb : List Nat) (r i' : Bool) (op : Nat) (v' c' m' : Bool)
    (pl pOff : Nat) (hlen : pOff ≤ hb.length) :
    finishHeader hb r i' op v' c' m' (JsNum.fin (pl : ℚ)) pOff =
      (if pl + pOff ≤ hb.length then
        ParseResult.complete ⟨r, i', op, v', c', m', pl, pOff,
          buf4 (jsSlice hb ((pOff : Int) - 4) (pOff : Int))⟩
      else ParseResult.midFrame ⟨r, i', op, v', c', m', pl, pOff,
          buf4 (jsSlice hb ((pOff : Int) - 4) (pOff : Int))⟩) := by
  unfold finishHeader
  rw [if_neg (by omega), toBufferSize_natCast]

/-- The header part of a serialized frame: everything before the payload. -/
theorem bytes_take_headerLen (f : FrameSpec) (hm : f.masked = true → f.mask.length = 4) :
    f.bytes.take f.headerLen =
      [(if f.fin then FIN else 0) ||| f.opcode,
        (if f.masked then MASK else 0) ||| lenField f.payload.length] ++
        extBytes f.payload.length ++ (if f.masked then f.mask else []) := by
  rw [FrameSpec.bytes]
  apply List.take_left'
  simp only [List.length_append, List.length_cons, List.length_nil, maskPart_length f hm,
    FrameSpec.headerLen]

/-- Dropping the header of a serialized frame leaves the wire payload. -/
theorem bytes_drop_headerLen (f : FrameSpec) (hm : f.masked = true → f.mask.length = 4) :
    f.bytes.drop f.headerLen = f.wireBody := by
  rw [FrameSpec.bytes]
  apply List.drop_left'
  simp only [List.length_append, List.length_cons, List.length_nil, maskPart_length f hm,
    FrameSpec.headerLen]

/-- The mask the decoder slices out of the buffered header is the mask of the
frame, for masked frames. -/
theorem mask_extract (f : FrameSpec) (hf4 : f.mask.length = 4) (hmm : f.masked = true)
    (hb : List Nat) (hpre : hb.take f.headerLen = f.bytes.take f.headerLen)
    (hlen : f.headerLen ≤ hb.length) :
    buf4 (jsSlice hb ((f.headerLen : Int) - 4) (f.headerLen : Int)) = f.mask := by
  have h4 : 4 ≤ f.headerLen := by
    unfold FrameSpec.headerLen
    rw [hmm]
    simp
  have hcast : ((f.headerLen : Int) - 4) = ((f.headerLen - 4 : Nat) : Int) := by omega
  rw [hcast, jsSlice_nat _ _ _ hlen, hpre, bytes_take_headerLen f (fun _ => hf4)]
  have hfront : ([(if f.fin then FIN else 0) ||| f.opcode,
      (if f.masked then MASK else 0) ||| lenField f.payload.length] ++
      extBytes f.payload.length).length = f.headerLen - 4 := by
    simp only [List.length_append, List.length_cons, List.length_nil, FrameSpec.headerLen,
      hmm, if_pos]
    omega
  rw [show (if f.masked then f.mask else []) = f.mask from by rw [hmm]; rfl]
  rw [List.drop_left' hfront]
  unfold buf4
  rw [List.take_of_length_le (le_of_eq hf4), hf4]
  simp

/-- Shared tail: once `parseOne` is reduced to its `finishHeader` call, the
produced header has the fields of the frame. -/
theorem finish_to_hdr (f : FrameSpec) (hf : f.Valid) (hb : List Nat)
    (hpre : hb.take f.headerLen = f.bytes.take f.headerLen)
    (hlen : f.headerLen ≤ hb.length) (r i' v' c' : Bool)
    (hred : parseOne hb = finishHeader hb r i' f.opcode v' c' f.masked
      (JsNum.fin (f.payload.length : ℚ)) f.headerLen) :
    ∃ hdr : Header,
      parseOne hb =
        (if f.payload.length + f.headerLen ≤ hb.length then ParseResult.complete hdr
          else ParseResult.midFrame hdr) ∧
      hdr.opcode = f.opcode ∧ hdr.isMasked = f.masked ∧
      hdr.payloadLength = f.payload.length ∧ hdr.payloadOffset = f.headerLen ∧
      (f.masked = true → hdr.mask = f.mask) := by
  rw [hred, finishHeader_spec hb r i' f.opcode v' c' f.masked _ _ (by omega)]
  refine ⟨⟨r, i', f.opcode, v', c', f.masked, f.payload.length, f.headerLen,
    buf4 (jsSlice hb ((f.headerLen : Int) - 4) (f.headerLen : Int))⟩, ?_, rfl, rfl, rfl, rfl, ?_⟩
  · split <;> rfl
  · intro hmm
    exact mask_extract f (hf.2.2.1 hmm).1 hmm hb hpre hlen

/-- Parsing a buffer whose first `headerLen` bytes agree with a valid frame
and whose length covers the header: the header parse succeeds with the fields
of the frame. -/
theorem parseOne_ready (f : FrameSpec) (hf : f.Valid) (hb : List Nat)
    (hpre : hb.take f.headerLen = f.bytes.take f.headerLen)
    (hlen : f.headerLen ≤ hb.length) :
    ∃ hdr : Header,
      parseOne hb =
        (if f.payload.length + f.headerLen ≤ hb.length then ParseResult.complete hdr
          else ParseResult.midFrame hdr) ∧
      hdr.opcode = f.opcode ∧ hdr.isMasked = f.masked ∧
      hdr.payloadLength = f.payload.length ∧ hdr.payloadOffset = f.headerLen ∧
      (f.masked = true → hdr.mask = f.mask) := by
  have h2le : 2 ≤ f.headerLen := headerLen_ge2 f
  have hgd : ∀ i, i < f.headerLen → hb.getD i 0 = f.bytes.getD i 0 := by
    intro i hi
    rw [← getD_take_eq hb f.headerLen i hi, hpre, getD_take_eq _ _ _ hi]
  have hb0 : hb.getD 0 0 = (if f.fin then FIN else 0) ||| f.opcode := by
    rw [hgd 0 (by omega), bytes_getD0]
  have hb1 : hb.getD 1 0 = (if f.masked then MASK else 0) ||| lenField f.payload.length := by
    rw [hgd 1 (by omega), bytes_getD1]
  obtain ⟨hrsv, hop, hfin⟩ := packB0 f.fin f.opcode (valid_opcode_lt f hf)
  obtain ⟨hmaskbit, hlen7⟩ := packB1 f.masked (lenField f.payload.length) (lenField_le _)
  have hnot2 : ¬(hb.length < 2) := by omega
  refine finish_to_hdr f hf hb hpre hlen true f.fin true (f.opcode == 0) ?_
  simp only [parseOne, if_neg hnot2, hb0, hb1, hrsv, hop, hfin, hmaskbit, hlen7,
    valid_opcode_pass f hf, valid_frag_pass f hf, beq_self_eq_true, Bool.not_true,
    Bool.false_eq_true, if_false, Bool.and_false]
  by_cases hA : f.payload.length ≤ 125
  · have hlf : lenField f.payload.length = f.payload.length := by
      unfold lenField
      rw [if_pos hA]
    have hhl : f.headerLen = if f.masked then 6 else 2 := by
      unfold FrameSpec.headerLen
      rw [extBytes_length, if_pos hA]
      split <;> rfl
    rw [hlf, if_neg (by simp; omega), if_neg (by simp; omega), hhl]
  · by_cases hB : f.payload.length ≤ 65535
    · have hlf : lenField f.payload.length = 126 := by
        unfold lenField
        rw [if_neg hA, if_pos hB]
      have hext : extBytes f.payload.length =
          [f.payload.length / 256, f.payload.length &&& BYTE] := by
        unfold extBytes
        rw [if_neg hA, if_pos hB]
      have hhl : f.headerLen = (if f.masked then 6 else 2) + 2 := by
        unfold FrameSpec.headerLen
        rw [extBytes_length, if_neg hA, if_pos hB]
        split <;> rfl
      have h2hl : 2 < f.headerLen := by rw [hhl]; split <;> omega
      have h3hl : 3 < f.headerLen := by rw [hhl]; split <;> omega
      have hg2 : hb.getD 2 0 = f.payload.length / 256 := by
        rw [hgd 2 h2hl, FrameSpec.bytes, hext]
        rfl
      have hg3 : hb.getD 3 0 = f.payload.length &&& BYTE := by
        rw [hgd 3 h3hl, FrameSpec.bytes, hext]
        rfl
      have hpl : hb.getD 2 0 * 256 + hb.getD 3 0 = f.payload.length := by
        rw [hg2, hg3, show BYTE = 2 ^ 8 - 1 from rfl, Nat.and_pow_two_sub_one_eq_mod]
        omega
      rw [hlf, if_pos (by decide), if_neg (by rw [← hhl]; omega), hpl, ← hhl]
    · have hlf : lenField f.payload.length = 127 := by
        unfold lenField
        rw [if_neg hA, if_neg hB]
      have hext : extBytes f.payload.length = jsWriteDoubleBE8 f.payload.length := by
        unfold extBytes
        rw [if_neg hA, if_neg hB]
      have hhl : f.headerLen = (if f.masked then 6 else 2) + 8 := by
        unfold FrameSpec.headerLen
        rw [extBytes_length, if_neg hA, if_neg hB]
        split <;> rfl
      have h10 : 10 ≤ f.headerLen := by rw [hhl]; split <;> omega
      have hseg : List.take 8 (List.drop 2 hb) = jsWriteDoubleBE8 f.payload.length := by
        have hju : ∀ l : List Nat, f.headerLen ≤ l.length →
            List.take 8 (List.drop 2 (l.take f.headerLen)) = List.take 8 (List.drop 2 l) := by
          intro l hl
          rw [List.drop_take, List.take_take, min_eq_left (by omega)]
        rw [← hju hb hlen, hpre, hju f.bytes (by rw [bytes_length f (fun hmm => (hf.2.2.1 hmm).1)]; exact le_trans (headerLen_le_len f) (le_refl _))]
        rw [FrameSpec.bytes, hext]
        rw [List.append_assoc, List.append_assoc]
        simp only [List.cons_append, List.nil_append, List.drop_succ_cons, List.drop_zero]
        exact List.take_left' rfl
      have hlt : f.payload.length < 2 ^ 53 := by
        have := hf.2.2.2.2
        unfold MAX_SAFE_INTEGER at this
        omega
      rw [hlf, if_neg (by decide), if_pos (by decide), if_neg (by rw [← hhl]; omega), hseg,
        jsRead_jsWrite _ (by omega) hlt, jsGe_natCast,
        if_neg (by simp only [decide_eq_true_eq]; have := hf.2.2.2.2; omega), ← hhl]

/-- Parsing a strict prefix of the header of a valid frame only buffers: the
decoder waits for more bytes. -/
theorem parseOne_short (f : FrameSpec) (hf : f.Valid) (k : Nat) (hk : k < f.headerLen) :
    parseOne (f.bytes.take k) = ParseResult.needMore := by
  by_cases h2 : k < 2
  · unfold parseOne
    rw [if_pos (lt_of_le_of_lt (List.length_take_le k f.bytes) h2)]
  · have hk2 : 2 ≤ k := by omega
    have hkb : k ≤ f.bytes.length := by
      rw [bytes_length f (fun hmm => (hf.2.2.1 hmm).1)]
      exact le_trans (le_of_lt hk) (headerLen_le_len f)
    have hklen : (f.bytes.take k).length = k := by
      rw [List.length_take, min_eq_left hkb]
    have hb0 : (f.bytes.take k).getD 0 0 = (if f.fin then FIN else 0) ||| f.opcode := by
      rw [getD_take_eq _ _ _ (by omega), bytes_getD0]
    have hb1 : (f.bytes.take k).getD 1 0 =
        (if f.masked then MASK else 0) ||| lenField f.payload.length := by
      rw [getD_take_eq _ _ _ (by omega), bytes_getD1]
    obtain ⟨hrsv, hop, hfin⟩ := packB0 f.fin f.opcode (valid_opcode_lt f hf)
    obtain ⟨hmaskbit, hlen7⟩ := packB1 f.masked (lenField f.payload.length) (lenField_le _)
    have hnot2 : ¬((f.bytes.take k).length < 2) := by omega
    simp only [parseOne, if_neg hnot2, hb0, hb1, hrsv, hop, hfin, hmaskbit, hlen7,
      valid_opcode_pass f hf, valid_frag_pass f hf, beq_self_eq_true, Bool.not_true,
      Bool.false_eq_true, if_false, Bool.and_false]
    by_cases hA : f.payload.length ≤ 125
    · have hlf : lenField f.payload.length = f.payload.length := by
        unfold lenField
        rw [if_pos hA]
      have hhl : f.headerLen = if f.masked then 6 else 2 := by
        unfold FrameSpec.headerLen
        rw [extBytes_length, if_pos hA]
        split <;> rfl
      rw [hlf, if_neg (by simp; omega), if_neg (by simp; omega)]
      unfold finishHeader
      rw [if_pos (by rw [hklen, ← hhl]; omega)]
    · by_cases hB : f.payload.length ≤ 65535
      · have hlf : lenField f.payload.length = 126 := by
          unfold lenField
          rw [if_neg hA, if_pos hB]
        have hhl : f.headerLen = (if f.masked then 6 else 2) + 2 := by
          unfold FrameSpec.headerLen
          rw [extBytes_length, if_neg hA, if_pos hB]
          split <;> rfl
        rw [hlf, if_pos (by decide), if_pos (by rw [hklen, ← hhl]; omega)]
      · have hlf : lenField f.payload.length = 127 := by
          unfold lenField
          rw [if_neg hA, if_neg hB]
        have hhl : f.headerLen = (if f.masked then 6 else 2) + 8 := by
          unfold FrameSpec.headerLen
          rw [extBytes_length, if_neg hA, if_neg hB]
          split <;> rfl
        rw [hlf, if_neg (by decide), if_pos (by decide),
          if_pos (by rw [hklen, ← hhl]; omega)]

theorem finishHeader_complete (hb : List Nat) (r i' : Bool) (op : Nat) (v' c' m' : Bool)
    (plJs : JsNum) (pOff : Nat) (hdr : Header)
    (h : finishHeader hb r i' op v' c' m' plJs pOff = ParseResult.complete hdr) :
    hdr.payloadOffset = pOff ∧ hdr.payloadLength + pOff ≤ hb.length ∧ pOff ≤ hb.length := by
  unfold finishHeader at h
  split at h
  · exact ParseResult.noConfusion h
  · rename_i hge
    split at h
    · exact ParseResult.noConfusion h
    · split at h
      · rename_i hle
        cases h
        exact ⟨rfl, hle, by omega⟩
      · exact ParseResult.noConfusion h

theorem finishHeader_midFrame (hb : List Nat) (r i' : Bool) (op : Nat) (v' c' m' : Bool)
    (plJs : JsNum) (pOff : Nat) (hdr : Header)
    (h : finishHeader hb r i' op v' c' m' plJs pOff = ParseResult.midFrame hdr) :
    hdr.payloadOffset = pOff ∧ hb.length < hdr.payloadLength + pOff ∧ pOff ≤ hb.length := by
  unfold finishHeader at h
  split at h
  · exact ParseResult.noConfusion h
  · rename_i hge
    split at h
    · exact ParseResult.noConfusion h
    · split at h
      · exact ParseResult.noConfusion h
      · rename_i hle
        cases h
        exact ⟨rfl, Nat.lt_of_not_le hle, by omega⟩

theorem parseOne_complete_bound (hb : List Nat) (hdr : Header)
    (h : parseOne hb = ParseResult.complete hdr) :
    2 ≤ hdr.payloadOffset ∧ hdr.payloadLength + hdr.payloadOffset ≤ hb.length := by
  simp only [parseOne] at h
  repeat' split at h
  all_goals first
    | exact ParseResult.noConfusion h
    | · obtain ⟨h1, h2, h3⟩ := finishHeader_complete _ _ _ _ _ _ _ _ _ _ h
        exact ⟨by omega, by omega⟩

theorem parseOne_midFrame_bound (hb : List Nat) (hdr : Header)
    (h : parseOne hb = ParseResult.midFrame hdr) :
    2 ≤ hdr.payloadOffset ∧ hb.length < hdr.payloadLength + hdr.payloadOffset ∧
      hdr.payloadOffset ≤ hb.length := by
  simp only [parseOne] at h
  repeat' split at h
  all_goals first
    | exact ParseResult.noConfusion h
    | · obtain ⟨h1, h2, h3⟩ := finishHeader_midFrame _ _ _ _ _ _ _ _ _ _ h
        exact ⟨by omega, by omega, by omega⟩

theorem goFuel_congr : ∀ (n : Nat) (hb : List Nat), hb.length ≤ n →
    ∀ fuel₁ fuel₂ : Nat, hb.length ≤ fuel₁ → hb.length ≤ fuel₂ →
      goFuel fuel₁ hb = goFuel fuel₂ hb := by
  intro n
  induction n with
  | zero =>
    intro hb h0 f₁ f₂ hf₁ hf₂
    have : hb = [] := List.length_eq_zero.1 (by omega)
    subst this
    cases f₁ <;> cases f₂ <;> rfl
  | succ n ih =>
    intro hb hlen f₁ f₂ hf₁ hf₂
    rcases Nat.eq_zero_or_pos hb.length with h0 | hpos
    · have : hb = [] := List.length_eq_zero.1 h0
      subst this
      cases f₁ <;> cases f₂ <;> rfl
    · obtain ⟨g₁, rfl⟩ : ∃ g, f₁ = g + 1 := ⟨f₁ - 1, by omega⟩
      obtain ⟨g₂, rfl⟩ : ∃ g, f₂ = g + 1 := ⟨f₂ - 1, by omega⟩
      simp only [goFuel]
      cases hp : parseOne hb with
      | needMore => rfl
      | fail e => rfl
      | midFrame hdr => rfl
      | complete hdr =>
        simp only []
        obtain ⟨hp2, hple⟩ := parseOne_complete_bound hb hdr hp
        split
        · rename_i hfe
          have hrec := ih (hb.drop (hdr.payloadLength + hdr.payloadOffset))
            (by simp only [List.length_drop]; omega) g₁ g₂
            (by simp only [List.length_drop]; omega) (by simp only [List.length_drop]; omega)
          rw [hrec]
        · rfl

theorem go_needMore (hb : List Nat) (h : parseOne hb = ParseResult.needMore) :
    go hb = (⟨0, hb, none, [], 0⟩, []) := by
  unfold go
  cases hl : hb.length with
  | zero =>
    have : hb = [] := List.length_eq_zero.1 hl
    subst this
    rfl
  | succ n =>
    simp only [goFuel, h]

theorem go_fail (hb : List Nat) (e : DecErr) (h : parseOne hb = ParseResult.fail e) :
    go hb = (⟨0, hb, none, [], 0⟩, [Ev.err e]) := by
  unfold go
  cases hl : hb.length with
  | zero =>
    have : hb = [] := List.length_eq_zero.1 hl
    subst this
    rw [show parseOne [] = ParseResult.needMore from rfl] at h
    exact ParseResult.noConfusion h
  | succ n =>
    simp only [goFuel, h]

theorem go_midFrame (hb : List Nat) (hdr : Header)
    (h : parseOne hb = ParseResult.midFrame hdr) :
    go hb = (⟨1, hb, some hdr,
      (hb.drop hdr.payloadOffset).take hdr.payloadLength ++
        List.replicate (hdr.payloadLength -
          ((hb.drop hdr.payloadOffset).take hdr.payloadLength).length) 0,
      hb.length - hdr.payloadOffset⟩, []) := by
  unfold go
  cases hl : hb.length with
  | zero =>
    have : hb = [] := List.length_eq_zero.1 hl
    subst this
    rw [show parseOne [] = ParseResult.needMore from rfl] at h
    exact ParseResult.noConfusion h
  | succ n =>
    simp only [goFuel, h]
    rw [hl]

theorem go_complete (hb : List Nat) (hdr : Header)
    (h : parseOne hb = ParseResult.complete hdr) :
    go hb =
      (if hdr.payloadLength + hdr.payloadOffset < hb.length then
        ((go (hb.drop (hdr.payloadLength + hdr.payloadOffset))).1,
          Ev.frame hdr.opcode
            (if hdr.isMasked then
              applyMask ((hb.drop hdr.payloadOffset).take hdr.payloadLength) hdr.mask 0
            else (hb.drop hdr.payloadOffset).take hdr.payloadLength) ::
          (go (hb.drop (hdr.payloadLength + hdr.payloadOffset))).2)
      else (initState,
        [Ev.frame hdr.opcode
          (if hdr.isMasked then
            applyMask ((hb.drop hdr.payloadOffset).take hdr.payloadLength) hdr.mask 0
          else (hb.drop hdr.payloadOffset).take hdr.payloadLength)])) := by
  obtain ⟨hp2, hple⟩ := parseOne_complete_bound hb hdr h
  unfold go
  cases hl : hb.length with
  | zero =>
    have : hb = [] := List.length_eq_zero.1 hl
    subst this
    rw [show parseOne [] = ParseResult.needMore from rfl] at h
    exact ParseResult.noConfusion h
  | succ n =>
    simp only [goFuel, h]
    split
    · rename_i hfe
      have : goFuel n (hb.drop (hdr.payloadLength + hdr.payloadOffset)) =
          goFuel (hb.drop (hdr.payloadLength + hdr.payloadOffset)).length
            (hb.drop (hdr.payloadLength + hdr.payloadOffset)) := by
        apply goFuel_congr (hb.drop (hdr.payloadLength + hdr.payloadOffset)).length _ (le_refl _)
        · simp only [List.length_drop]
          omega
        · exact le_refl _
      rw [this, if_pos (show hdr.payloadLength + hdr.payloadOffset < n + 1 by omega)]
    · rename_i hfe
      rw [if_neg (show ¬(hdr.payloadLength + hdr.payloadOffset < n + 1) by omega)]

theorem streamBytes_cons (g : FrameSpec) (rest : List FrameSpec) :
    streamBytes (g :: rest) = g.bytes ++ streamBytes rest := by
  simp [streamBytes]

theorem streamBytes_nil : streamBytes [] = [] := rfl

theorem len_pos (f : FrameSpec) : 0 < f.len := by
  have := headerLen_ge2 f
  unfold FrameSpec.len
  omega

theorem MidP_zero : ∀ gs : List FrameSpec, MidP gs 0 initState := by
  intro gs
  cases gs with
  | nil => exact ⟨rfl, rfl⟩
  | cons g rest =>
    refine ⟨len_pos g, Or.inl ⟨by have := headerLen_ge2 g; omega, ?_⟩⟩
    rfl

theorem remBytes_zero (gs : List FrameSpec) : remBytes gs 0 = streamBytes gs := by
  cases gs with
  | nil => rfl
  | cons g rest => simp [remBytes, streamBytes_cons]

theorem adv_lt (g : FrameSpec) (rest : List FrameSpec) (n : Nat) (h : n < g.len) :
    adv (g :: rest) n = ([], g :: rest, n) := by
  conv_lhs => rw [adv]
  rw [if_pos h]

theorem adv_ge (g : FrameSpec) (rest : List FrameSpec) (n : Nat) (h : g.len ≤ n) :
    adv (g :: rest) n = (g :: (adv rest (n - g.len)).1, (adv rest (n - g.len)).2) := by
  conv_lhs => rw [adv]
  rw [if_neg (by omega)]

theorem splitAtFront (B T C S : List Nat) (h : B ++ T = C ++ S) (hle : B.length ≤ C.length) :
    B = C.take B.length ∧ T = C.drop B.length ++ S := by
  constructor
  · have h1 := congrArg (List.take B.length) h
    rwa [List.take_left, List.take_append_eq_append_take,
      show B.length - C.length = 0 by omega, List.take_zero, List.append_nil] at h1
  · have h2 := congrArg (List.drop B.length) h
    rwa [List.drop_left, List.drop_append_eq_append_drop,
      show B.length - C.length = 0 by omega, List.drop_zero] at h2

theorem splitAtBack (B T C S : List Nat) (h : B ++ T = C ++ S) (hle : C.length ≤ B.length) :
    B.take C.length = C ∧ B.drop C.length ++ T = S := by
  constructor
  · have h1 := congrArg (List.take C.length) h
    rwa [List.take_append_eq_append_take, show C.length - B.length = 0 by omega, List.take_zero,
      List.append_nil, List.take_left] at h1
  · have h2 := congrArg (List.drop C.length) h
    rwa [List.drop_append_eq_append_drop, show C.length - B.length = 0 by omega, List.drop_zero,
      List.drop_left] at h2

/-- Main decoder lemma: a header pass over a prefix of a valid frame stream
emits exactly the frames the prefix completes and leaves the canonical state
for the position it reaches. -/
theorem go_spec : ∀ (gs : List FrameSpec), (∀ f ∈ gs, f.Valid) →
    ∀ B T : List Nat, B ++ T = streamBytes gs →
      (go B).2 = ((adv gs B.length).1).map idealEv ∧
        MidP (adv gs B.length).2.1 (adv gs B.length).2.2 (go B).1 ∧
        remBytes (adv gs B.length).2.1 (adv gs B.length).2.2 = T := by
  intro gs
  induction gs with
  | nil =>
    intro hval B T hBT
    rw [streamBytes_nil] at hBT
    obtain ⟨hB, hT⟩ := List.append_eq_nil.1 hBT
    subst hB
    subst hT
    rw [go_needMore [] rfl]
    exact ⟨rfl, ⟨rfl, rfl⟩, rfl⟩
  | cons g rest ih =>
    intro hval B T hBT
    have hv : g.Valid := hval g (by simp)
    have hvrest : ∀ f ∈ rest, f.Valid := fun f hf => hval f (by simp [hf])
    have hg4 : g.masked = true → g.mask.length = 4 := fun hm => (hv.2.2.1 hm).1
    have hbl : g.bytes.length = g.len := bytes_length g hg4
    have hlep : g.headerLen ≤ g.len := headerLen_le_len g
    have hlen_def : g.len = g.headerLen + g.payload.length := rfl
    rw [streamBytes_cons] at hBT
    by_cases hcase : B.length < g.len
    · obtain ⟨hBpre, hTrem⟩ := splitAtFront B T g.bytes (streamBytes rest) hBT (by omega)
      rw [adv_lt g rest B.length hcase]
      by_cases hhd : B.length < g.headerLen
      · have hne := parseOne_short g hv B.length hhd
        rw [← hBpre] at hne
        rw [go_needMore B hne]
        refine ⟨rfl, ⟨hcase, Or.inl ⟨hhd, by rw [← hBpre]⟩⟩, ?_⟩
        show (FrameSpec.bytes g).drop B.length ++ streamBytes rest = T
        exact hTrem.symm
      · have hpre2 : B.take g.headerLen = g.bytes.take g.headerLen := by
          conv_lhs => rw [hBpre]
          rw [List.take_take, min_eq_left (by omega)]
        obtain ⟨hdr, hp, hop, hm, hpl, hpo, hmask⟩ := parseOne_ready g hv B hpre2 (by omega)
        rw [if_neg (by omega)] at hp
        rw [go_midFrame B hdr hp]
        have hdropB : B.drop g.headerLen = g.wireBody.take (B.length - g.headerLen) := by
          conv_lhs => rw [hBpre]
          rw [List.drop_take, bytes_drop_headerLen g hg4]
        have hpart : (B.drop hdr.payloadOffset).take hdr.payloadLength =
            g.wireBody.take (B.length - g.headerLen) := by
          rw [hpo, hpl, hdropB, List.take_take, min_eq_right (by omega)]
        refine ⟨rfl, ⟨hcase, Or.inr ⟨Nat.le_of_not_lt hhd, rfl, ?_, ?_, hdr, rfl, hop, hm, hpl, hmask⟩⟩, ?_⟩
        · show B.length - hdr.payloadOffset = B.length - g.headerLen
          rw [hpo]
        · show (B.drop hdr.payloadOffset).take hdr.payloadLength ++
            List.replicate (hdr.payloadLength -
              ((B.drop hdr.payloadOffset).take hdr.payloadLength).length) 0 =
            g.wireBody.take (B.length - g.headerLen) ++
              List.replicate (g.payload.length - (B.length - g.headerLen)) 0
          rw [hpart, hpl]
          congr 2
          rw [List.length_take, wireBody_length, min_eq_left (by omega)]
        · show (FrameSpec.bytes g).drop B.length ++ streamBytes rest = T
          exact hTrem.symm
    · have hglen : g.len ≤ B.length := by omega
      obtain ⟨hBtake, hrest⟩ := splitAtBack B T g.bytes (streamBytes rest) hBT (by omega)
      rw [hbl] at hBtake hrest
      have hBsplit : B = g.bytes ++ B.drop g.len := by
        conv_lhs => rw [← List.take_append_drop g.len B]
        rw [hBtake]
      have hpre2 : B.take g.headerLen = g.bytes.take g.headerLen := by
        conv_rhs => rw [← hBtake]
        rw [List.take_take, min_eq_left (by omega)]
      obtain ⟨hdr, hp, hop, hm, hpl, hpo, hmask⟩ := parseOne_ready g hv B hpre2 (by omega)
      rw [if_pos (by omega)] at hp
      rw [go_complete B hdr hp]
      have hbody : (B.drop hdr.payloadOffset).take hdr.payloadLength = g.wireBody := by
        rw [hpo, hpl]
        have hd : B.drop g.headerLen = g.wireBody ++ B.drop g.len := by
          conv_lhs => rw [hBsplit]
          rw [List.drop_append_eq_append_drop, show g.headerLen - g.bytes.length = 0 by omega,
            List.drop_zero, bytes_drop_headerLen g hg4]
        rw [hd, List.take_left' (wireBody_length g)]
      have hout : (if hdr.isMasked then
          applyMask ((B.drop hdr.payloadOffset).take hdr.payloadLength) hdr.mask 0
        else (B.drop hdr.payloadOffset).take hdr.payloadLength) = g.payload := by
        rw [hbody, hm]
        rcases hmc : g.masked with _ | _
        · rw [if_neg (by simp)]
          unfold FrameSpec.wireBody
          rw [if_neg (by simp [hmc])]
        · rw [if_pos rfl, hmask hmc]
          unfold FrameSpec.wireBody
          rw [if_pos (by simp [hmc])]
          exact applyMask_applyMask g.payload g.mask 0
      have hfe : hdr.payloadLength + hdr.payloadOffset = g.len := by
        rw [hpl, hpo, hlen_def]
        omega
      rw [hfe]
      rw [adv_ge g rest B.length hglen]
      by_cases hrem : g.len < B.length
      · rw [if_pos hrem]
        obtain ⟨ih1, ih2, ih3⟩ := ih hvrest (B.drop g.len) T hrest
        rw [List.length_drop] at ih1 ih2 ih3
        refine ⟨?_, ih2, ih3⟩
        rw [List.map_cons]
        rw [hout, hop, ih1]
        rfl
      · rw [if_neg hrem]
        have hlen0 : B.length - g.len = 0 := by omega
        rw [hlen0]
        have hadv0 : adv rest 0 = ([], rest, 0) := by
          cases rest with
          | nil => rfl
          | cons g' r' => exact adv_lt g' r' 0 (len_pos g')
        rw [hadv0]
        refine ⟨?_, MidP_zero rest, ?_⟩
        · rw [List.map_cons, List.map_nil, hout, hop]
          rfl
        · rw [remBytes_zero]
          have hB2 : B.drop g.len = [] := by
            rw [← List.length_eq_zero, List.length_drop]
            omega
          rw [hB2] at hrest
          exact hrest.symm

theorem bufCopy_spec (wb : List Nat) (pl copied n : Nat)
    (hwb : wb.length = pl) (hnc : copied + n ≤ pl) :
    bufCopy (wb.take copied ++ List.replicate (pl - copied) 0) copied
        ((wb.drop copied).take n) =
      wb.take (copied + n) ++ List.replicate (pl - (copied + n)) 0 := by
  have hsl : ((wb.drop copied).take n).length = n := by
    simp only [List.length_take, List.length_drop, hwb]
    omega
  have htl : (wb.take copied ++ List.replicate (pl - copied) 0).length = pl := by
    simp only [List.length_append, List.length_take, List.length_replicate, hwb]
    omega
  have hn : min n (pl - copied) = n := min_eq_left (by omega)
  have h1 : (wb.take copied ++ List.replicate (pl - copied) 0).take copied = wb.take copied := by
    apply List.take_left'
    rw [List.length_take, hwb]
    omega
  have h2 : (wb.take copied ++ List.replicate (pl - copied) 0).drop (copied + n) =
      List.replicate (pl - (copied + n)) 0 := by
    rw [List.drop_append_eq_append_drop, List.drop_eq_nil_of_le
      (by rw [List.length_take, hwb]; omega), List.nil_append, List.drop_replicate]
    congr 1
    rw [List.length_take, hwb]
    omega
  have h3 : ((wb.drop copied).take n).take n = (wb.drop copied).take n := by
    rw [List.take_take, min_self]
  unfold bufCopy
  simp only [htl, hsl, hn, h1, h2, h3]
  rw [← List.take_add]

/-- One write into the decoder from a canonical mid-stream state: the decoder
advances by the chunk, emitting the frames the chunk completes. -/
theorem transform_spec (gs : List FrameSpec) (hval : ∀ f ∈ gs, f.Valid) (k : Nat) (s : DecState)
    (hmid : MidP gs k s) (c T : List Nat) (hcT : c ++ T = remBytes gs k) :
    (transform s c).2 = ((adv gs (k + c.length)).1).map idealEv ∧
      MidP (adv gs (k + c.length)).2.1 (adv gs (k + c.length)).2.2 (transform s c).1 ∧
      remBytes (adv gs (k + c.length)).2.1 (adv gs (k + c.length)).2.2 = T := by
  cases gs with
  | nil =>
    obtain ⟨hk, hs⟩ := hmid
    subst hk
    subst hs
    have hc : c = [] ∧ T = [] := List.append_eq_nil.1 hcT
    obtain ⟨hc1, hc2⟩ := hc
    subst hc1
    subst hc2
    rw [show transform initState [] = go [] from rfl, go_needMore [] rfl]
    exact ⟨rfl, ⟨rfl, rfl⟩, rfl⟩
  | cons g rest =>
    have hv : g.Valid := hval g (by simp)
    have hvrest : ∀ f ∈ rest, f.Valid := fun f hf => hval f (by simp [hf])
    have hg4 : g.masked = true → g.mask.length = 4 := fun hm => (hv.2.2.1 hm).1
    have hbl : g.bytes.length = g.len := bytes_length g hg4
    have hlep : g.headerLen ≤ g.len := headerLen_le_len g
    have hlen_def : g.len = g.headerLen + g.payload.length := rfl
    have hwbl : g.wireBody.length = g.payload.length := wireBody_length g
    obtain ⟨hklt, hmid2⟩ := hmid
    rcases hmid2 with ⟨hkhd, hs⟩ | ⟨hkhd, hst, hbc, hpay, hdr, hsh, hop, hm, hpl, hmask⟩
    · subst hs
      have htr : transform ⟨0, (FrameSpec.bytes g).take k, none, [], 0⟩ c =
          go ((FrameSpec.bytes g).take k ++ c) := rfl
      rw [htr]
      have hBT : ((FrameSpec.bytes g).take k ++ c) ++ T = streamBytes (g :: rest) := by
        rw [streamBytes_cons, List.append_assoc, hcT]
        show (FrameSpec.bytes g).take k ++ ((FrameSpec.bytes g).drop k ++ streamBytes rest) = _
        rw [← List.append_assoc, List.take_append_drop]
      have hklen : ((FrameSpec.bytes g).take k ++ c).length = k + c.length := by
        simp only [List.length_append, List.length_take, hbl]
        omega
      have := go_spec (g :: rest) hval ((FrameSpec.bytes g).take k ++ c) T hBT
      rwa [hklen] at this
    · obtain ⟨st, hbuf, sh, sp, sc⟩ := s
      simp only at hst hbc hpay hsh
      subst hst
      subst hsh
      subst hbc
      subst hpay
      have hrem : c ++ T = g.wireBody.drop (k - g.headerLen) ++ streamBytes rest := by
        rw [hcT]
        show (FrameSpec.bytes g).drop k ++ streamBytes rest = _
        have : (FrameSpec.bytes g).drop k =
            ((FrameSpec.bytes g).drop g.headerLen).drop (k - g.headerLen) := by
          rw [List.drop_drop]
          congr 1
          omega
        rw [this, bytes_drop_headerLen g hg4]
      set copied := k - g.headerLen with hcop
      have hneed : (g.wireBody.drop copied).length = g.payload.length - copied := by
        rw [List.length_drop, hwbl]
      have htr : transform ⟨1, hbuf, some hdr,
          g.wireBody.take copied ++ List.replicate (g.payload.length - copied) 0, copied⟩ c =
          (let j := min c.length (hdr.payloadLength - copied)
           let payload := bufCopy (g.wireBody.take copied ++
             List.replicate (g.payload.length - copied) 0) copied (c.take j)
           let bytesCopied := copied + j
           let remainder := c.drop j
           if bytesCopied = hdr.payloadLength then
             let outPayload := if hdr.isMasked then applyMask payload hdr.mask 0 else payload
             if 0 < remainder.length then
               let r := go remainder
               (r.1, Ev.frame hdr.opcode outPayload :: r.2)
             else (initState, [Ev.frame hdr.opcode outPayload])
           else (⟨1, hbuf, some hdr, payload, bytesCopied⟩, [])) := rfl
      rw [htr]
      by_cases hcb : c.length < g.payload.length - copied
      · -- the chunk does not complete the payload
        have hj : min c.length (hdr.payloadLength - copied) = c.length := by
          rw [hpl]
          omega
        obtain ⟨hcpre, hTpre⟩ := splitAtFront c T (g.wireBody.drop copied) (streamBytes rest)
          hrem (by omega)
        have hctake : c.take c.length = c := List.take_length c
        have hbc2 : bufCopy (g.wireBody.take copied ++
            List.replicate (g.payload.length - copied) 0) copied (c.take c.length) =
            g.wireBody.take (copied + c.length) ++
              List.replicate (g.payload.length - (copied + c.length)) 0 := by
          rw [hctake]
          conv_lhs => rw [hcpre]
          exact bufCopy_spec g.wireBody g.payload.length copied c.length hwbl (by omega)
        simp only [hj, hbc2, if_neg (show ¬(copied + c.length = hdr.payloadLength) by
          rw [hpl]; omega)]
        have hadv : adv (g :: rest) (k + c.length) = ([], g :: rest, k + c.length) :=
          adv_lt g rest _ (by omega)
        rw [hadv]
        refine ⟨rfl, ⟨show k + c.length < g.len by omega,
          Or.inr ⟨show g.headerLen ≤ k + c.length by omega, rfl,
            show copied + c.length = k + c.length - g.headerLen by omega, ?_,
            hdr, rfl, hop, hm, hpl, hmask⟩⟩, ?_⟩
        · show g.wireBody.take (copied + c.length) ++
              List.replicate (g.payload.length - (copied + c.length)) 0 =
            g.wireBody.take (k + c.length - g.headerLen) ++
              List.replicate (g.payload.length - (k + c.length - g.headerLen)) 0
          congr 2 <;> omega
        · show (FrameSpec.bytes g).drop (k + c.length) ++ streamBytes rest = T
          rw [hTpre, List.drop_drop]
          have : (FrameSpec.bytes g).drop (k + c.length) =
              ((FrameSpec.bytes g).drop g.headerLen).drop (k + c.length - g.headerLen) := by
            rw [List.drop_drop]
            congr 1
            omega
          rw [this, bytes_drop_headerLen g hg4]
          congr 2
          omega
      · -- the chunk completes the payload
        have hneed2 : g.payload.length - copied ≤ c.length := by omega
        have hj : min c.length (hdr.payloadLength - copied) = g.payload.length - copied := by
          rw [hpl]
          omega
        have hlen_rem : (g.wireBody.drop copied).length = g.payload.length - copied := hneed
        obtain ⟨hcpre, hcdrop⟩ := splitAtBack c T (g.wireBody.drop copied) (streamBytes rest)
          hrem (by omega)
        rw [hlen_rem] at hcpre hcdrop
        have hbc2 : bufCopy (g.wireBody.take copied ++
            List.replicate (g.payload.length - copied) 0) copied
            (c.take (g.payload.length - copied)) = g.wireBody := by
          conv_lhs => rw [hcpre]
          have hfull : (g.wireBody.drop copied) =
              (g.wireBody.drop copied).take (g.payload.length - copied) := by
            rw [List.take_of_length_le (le_of_eq hlen_rem)]
          conv_lhs => rw [hfull]
          rw [bufCopy_spec g.wireBody g.payload.length copied (g.payload.length - copied) hwbl
            (by omega)]
          rw [show copied + (g.payload.length - copied) = g.payload.length by omega,
            List.take_of_length_le (le_of_eq hwbl), Nat.sub_self, List.replicate_zero,
            List.append_nil]
        simp only [hj, hbc2, if_pos (show copied + (g.payload.length - copied) =
          hdr.payloadLength by rw [hpl]; omega)]
        have hout : (if hdr.isMasked then applyMask g.wireBody hdr.mask 0 else g.wireBody) =
            g.payload := by
          rw [hm]
          rcases hmc : g.masked with _ | _
          · rw [if_neg (by simp)]
            unfold FrameSpec.wireBody
            rw [if_neg (by simp [hmc])]
          · rw [if_pos rfl, hmask hmc]
            unfold FrameSpec.wireBody
            rw [if_pos (by simp [hmc])]
            exact applyMask_applyMask g.payload g.mask 0
        rw [hout]
        by_cases hrm : 0 < (c.drop (g.payload.length - copied)).length
        · rw [if_pos hrm]
          obtain ⟨ih1, ih2, ih3⟩ := go_spec rest hvrest (c.drop (g.payload.length - copied)) T
            hcdrop
          rw [List.length_drop] at ih1 ih2 ih3
          have hadv : adv (g :: rest) (k + c.length) =
              (g :: (adv rest (k + c.length - g.len)).1, (adv rest (k + c.length - g.len)).2) :=
            adv_ge g rest _ (by omega)
          rw [hadv]
          have harg : c.length - (g.payload.length - copied) = k + c.length - g.len := by omega
          rw [harg] at ih1 ih2 ih3
          refine ⟨?_, ih2, ih3⟩
          show Ev.frame hdr.opcode g.payload :: (go (c.drop (g.payload.length - copied))).2 = _
          rw [List.map_cons, ih1, hop]
          rfl
        · rw [if_neg hrm]
          have hc0 : c.drop (g.payload.length - copied) = [] := by
            rw [← List.length_eq_zero]
            omega
          have hlenc : c.length = g.payload.length - copied := by
            have := List.length_drop (g.payload.length - copied) c
            rw [hc0] at this
            simp at this
            omega
          have hadv : adv (g :: rest) (k + c.length) =
              (g :: (adv rest (k + c.length - g.len)).1, (adv rest (k + c.length - g.len)).2) :=
            adv_ge g rest _ (by omega)
          rw [hadv, show k + c.length - g.len = 0 by omega]
          have hadv0 : adv rest 0 = ([], rest, 0) := by
            cases rest with
            | nil => rfl
            | cons g' r' => exact adv_lt g' r' 0 (len_pos g')
          rw [hadv0]
          rw [hc0] at hcdrop
          refine ⟨?_, MidP_zero rest, ?_⟩
          · show [Ev.frame hdr.opcode g.payload] = _
            rw [List.map_cons, List.map_nil, hop]
            rfl
          rw [remBytes_zero]
          exact hcdrop.symm

theorem feedChunks_go : ∀ (cs : List (List Nat)) (s : DecState) (acc : List Ev),
    cs.foldl (fun p c => let r := transform p.1 c; (r.1, p.2 ++ r.2)) (s, acc) =
      ((feedChunks s cs).1, acc ++ (feedChunks s cs).2) := by
  intro cs
  induction cs with
  | nil =>
    intro s acc
    simp [feedChunks]
  | cons c cs ih =>
    intro s acc
    simp only [feedChunks, List.foldl_cons]
    rw [ih, ih]
    simp [List.append_assoc]

theorem feedChunks_cons (s : DecState) (c : List Nat) (cs : List (List Nat)) :
    feedChunks s (c :: cs) =
      ((feedChunks (transform s c).1 cs).1,
        (transform s c).2 ++ (feedChunks (transform s c).1 cs).2) := by
  show (cs.foldl (fun p c => let r := transform p.1 c; (r.1, p.2 ++ r.2))
    ((transform s c).1, [] ++ (transform s c).2)) = _
  rw [feedChunks_go]
  simp

theorem adv_comp : ∀ (gs : List FrameSpec) (n m : Nat),
    adv gs (n + m) = ((adv gs n).1 ++ (adv (adv gs n).2.1 ((adv gs n).2.2 + m)).1,
      (adv (adv gs n).2.1 ((adv gs n).2.2 + m)).2) := by
  intro gs
  induction gs with
  | nil => intro n m; rfl
  | cons g rest ih =>
    intro n m
    by_cases hn : n < g.len
    · rw [adv_lt g rest n hn]
      rfl
    · rw [adv_ge g rest n (by omega), adv_ge g rest (n + m) (by omega)]
      simp only [List.cons_append]
      rw [show n + m - g.len = (n - g.len) + m by omega, ih (n - g.len) m]

theorem adv_mem : ∀ (gs : List FrameSpec) (n : Nat) (f : FrameSpec),
    f ∈ (adv gs n).2.1 → f ∈ gs := by
  intro gs
  induction gs with
  | nil => intro n f h; exact absurd h (by simp [adv])
  | cons g rest ih =>
    intro n f h
    by_cases hn : n < g.len
    · rw [adv_lt g rest n hn] at h
      exact h
    · rw [adv_ge g rest n (by omega)] at h
      exact List.mem_cons_of_mem g (ih (n - g.len) f h)

theorem adv_of_MidP (gs : List FrameSpec) (k : Nat) (s : DecState) (hmid : MidP gs k s) :
    adv gs k = ([], gs, k) := by
  cases gs with
  | nil =>
    obtain ⟨hk, _⟩ := hmid
    subst hk
    rfl
  | cons g rest => exact adv_lt g rest k hmid.1

/-- Feeding chunks from a canonical mid-stream position: the emissions are the
frames completed by the delivered bytes, in order. -/
theorem feedChunks_spec : ∀ (cs : List (List Nat)) (gs : List FrameSpec),
    (∀ f ∈ gs, f.Valid) → ∀ (k : Nat) (s : DecState) (T : List Nat),
    MidP gs k s → cs.flatten ++ T = remBytes gs k →
      (feedChunks s cs).2 = ((adv gs (k + cs.flatten.length)).1).map idealEv ∧
        MidP (adv gs (k + cs.flatten.length)).2.1 (adv gs (k + cs.flatten.length)).2.2
          (feedChunks s cs).1 ∧
        remBytes (adv gs (k + cs.flatten.length)).2.1
          (adv gs (k + cs.flatten.length)).2.2 = T := by
  intro cs
  induction cs with
  | nil =>
    intro gs hval k s T hmid hflat
    rw [show ([] : List (List Nat)).flatten = [] from rfl] at hflat ⊢
    rw [show ([] : List Nat).length = 0 from rfl, Nat.add_zero, adv_of_MidP gs k s hmid]
    exact ⟨rfl, hmid, by rw [← hflat]; rfl⟩
  | cons c cs ih =>
    intro gs hval k s T hmid hflat
    rw [feedChunks_cons]
    have hflat2 : c ++ (cs.flatten ++ T) = remBytes gs k := by
      rw [← hflat, List.flatten_cons, List.append_assoc]
    obtain ⟨t2, tmid, trem⟩ := transform_spec gs hval k s hmid c (cs.flatten ++ T) hflat2
    have hval2 : ∀ f ∈ (adv gs (k + c.length)).2.1, f.Valid :=
      fun f hf => hval f (adv_mem gs (k + c.length) f hf)
    obtain ⟨i1, i2, i3⟩ := ih (adv gs (k + c.length)).2.1 hval2 (adv gs (k + c.length)).2.2
      (transform s c).1 T tmid (by rw [trem])
    have hcomp := adv_comp gs (k + c.length) cs.flatten.length
    have hlen : k + ((c :: cs).flatten).length = k + c.length + cs.flatten.length := by
      rw [List.flatten_cons]
      simp only [List.length_append]
      omega
    rw [hlen, hcomp]
    refine ⟨?_, i2, i3⟩
    show (transform s c).2 ++ (feedChunks (transform s c).1 cs).2 = _
    rw [t2, i1, List.map_append]

theorem adv_total : ∀ gs : List FrameSpec, (∀ f ∈ gs, f.Valid) →
    adv gs (streamBytes gs).length = (gs, [], 0) := by
  intro gs
  induction gs with
  | nil => intro h; rfl
  | cons g rest ih =>
    intro h
    have hbl : g.bytes.length = g.len :=
      bytes_length g (fun hm => ((h g (by simp)).2.2.1 hm).1)
    rw [streamBytes_cons, List.length_append, hbl, adv_ge g rest _ (by omega),
      show g.len + (streamBytes rest).length - g.len = (streamBytes rest).length by omega,
      ih (fun f hf => h f (by simp [hf]))]

/-- Masking a built frame from the payload offset on masks only the copied
payload. -/
theorem applyMask_frame (front mask buffer : List Nat) (off : Nat)
    (hoff : off = front.length + mask.length) :
    applyMask (front ++ mask ++ buffer) mask off = front ++ mask ++ applyMask buffer mask 0 := by
  have h1 : front ++ mask ++ buffer = (front ++ mask) ++ buffer := by
    simp [List.append_assoc]
  have h2 : off = (front ++ mask).length := by
    simp [hoff]
  rw [h1, h2, applyMask_append]

/-- `_buildFrame` produces exactly the serialized frame with `FIN` set. -/
theorem buildFrame_eq_bytes (m : Bool) (mask buffer : List Nat) (op : Nat)
    (hlen : buffer.length < MAX_SAFE_INTEGER) (hm4 : m = true → mask.length = 4) :
    buildFrame m mask buffer op =
      some (FrameSpec.bytes ⟨true, op, m, mask, buffer⟩) := by
  cases m with
  | false =>
    unfold buildFrame FrameSpec.bytes FrameSpec.wireBody lenField extBytes
    rw [if_neg (by omega)]
    by_cases hA : buffer.length ≤ 125
    · simp [hA]
    · by_cases hB : buffer.length ≤ 65535
      · simp [hA, hB]
      · simp [hA, hB]
  | true =>
    have h4 : mask.length = 4 := hm4 rfl
    unfold buildFrame FrameSpec.bytes FrameSpec.wireBody lenField extBytes
    rw [if_neg (by omega)]
    by_cases hA : buffer.length ≤ 125
    · simp only [hA, if_pos, if_true, reduceIte]
      rw [applyMask_frame _ _ _ _ (by simp [h4])]
      simp
    · by_cases hB : buffer.length ≤ 65535
      · simp only [hA, hB, if_false, if_true, reduceIte]
        rw [applyMask_frame _ _ _ _ (by simp [h4])]
        simp
      · simp only [hA, hB, if_false, if_true, reduceIte]
        rw [applyMask_frame _ _ _ _ (by simp [h4, jsWriteDoubleBE8, be8])]

/-- `finishHeader` with a natural-number payload length never fails: the
`Buffer.alloc` of the payload accepts every nonnegative integer. -/
theorem finishHeader_natCast_ne_fail (hb : List Nat) (r i' : Bool) (op : Nat)
    (v' c' m' : Bool) (n : Nat) (pOff : Nat) (e : DecErr) :
    finishHeader hb r i' op v' c' m' (JsNum.fin (n : ℚ)) pOff ≠ ParseResult.fail e := by
  intro h
  by_cases hlen : pOff ≤ hb.length
  · rw [finishHeader_spec hb r i' op v' c' m' n pOff hlen] at h
    split at h <;> exact ParseResult.noConfusion h
  · unfold finishHeader at h
    rw [if_pos (by omega)] at h
    exact ParseResult.noConfusion h

/-- A failing `finishHeader` call is an allocation failure on a buffered
header that already covers the payload offset. -/
theorem finishHeader_fail (hb : List Nat) (r i' : Bool) (op : Nat) (v' c' m' : Bool)
    (plJs : JsNum) (pOff : Nat) (e : DecErr)
    (h : finishHeader hb r i' op v' c' m' plJs pOff = ParseResult.fail e) :
    pOff ≤ hb.length ∧ toBufferSize plJs = none ∧ e = DecErr.allocFailure := by
  unfold finishHeader at h
  split at h
  · exact ParseResult.noConfusion h
  · rename_i hge
    split at h
    · rename_i hnone
      cases h
      exact ⟨by omega, hnone, rfl⟩
    · split at h <;> exact ParseResult.noConfusion h

theorem finishHeader_fail_intro (hb : List Nat) (r i' : Bool) (op : Nat) (v' c' m' : Bool)
    (plJs : JsNum) (pOff : Nat) (hlen : pOff ≤ hb.length)
    (hnone : toBufferSize plJs = none) :
    finishHeader hb r i' op v' c' m' plJs pOff = ParseResult.fail DecErr.allocFailure := by
  unfold finishHeader
  rw [if_neg (by omega), hnone]

/-- Once the buffered bytes make the header parse fail, appending further
bytes cannot change the outcome: the same failure is reproduced. -/
theorem parseOne_fail_append (hb c : List Nat) (e : DecErr)
    (h : parseOne hb = ParseResult.fail e) : parseOne (hb ++ c) = ParseResult.fail e := by
  by_cases hl2 : hb.length < 2
  · simp only [parseOne, if_pos hl2] at h
    exact ParseResult.noConfusion h
  have hl2' : ¬((hb ++ c).length < 2) := by
    rw [List.length_append]
    omega
  have hg0 : (hb ++ c).getD 0 0 = hb.getD 0 0 := List.getD_append hb c 0 0 (by omega)
  have hg1 : (hb ++ c).getD 1 0 = hb.getD 1 0 := List.getD_append hb c 0 1 (by omega)
  simp only [parseOne, if_neg hl2] at h
  simp only [parseOne, if_neg hl2', hg0, hg1]
  by_cases h1 : (!(hb.getD 0 0 &&& RSV == 0)) = true
  · rw [if_pos h1] at h ⊢
    exact h
  rw [if_neg h1] at h ⊢
  by_cases h2 : (!(VALID_OPCODES.getD (hb.getD 0 0 &&& OPCODE) 0 == 1)) = true
  · rw [if_pos h2] at h ⊢
    exact h
  rw [if_neg h2] at h ⊢
  by_cases h3 : (FRAGMENTED_OPCODES.getD (hb.getD 0 0 &&& OPCODE) 0 != 1
      && !(hb.getD 0 0 &&& FIN == FIN)) = true
  · rw [if_pos h3] at h ⊢
    exact h
  rw [if_neg h3] at h ⊢
  by_cases h4 : ((hb.getD 1 0 &&& LENGTH) == 126) = true
  · rw [if_pos h4] at h
    by_cases h6 : hb.length < (if (hb.getD 1 0 &&& MASK == MASK) = true then 6 else 2) + 2
    · rw [if_pos h6] at h
      exact ParseResult.noConfusion h
    · rw [if_neg h6] at h
      exact absurd h (finishHeader_natCast_ne_fail _ _ _ _ _ _ _ _ _ _)
  rw [if_neg h4] at h ⊢
  by_cases h5 : ((hb.getD 1 0 &&& LENGTH) == 127) = true
  · rw [if_pos h5] at h ⊢
    set po8 := (if (hb.getD 1 0 &&& MASK == MASK) = true then 6 else 2) + 8 with hpo8
    by_cases h6 : hb.length < po8
    · rw [if_pos h6] at h
      exact ParseResult.noConfusion h
    rw [if_neg h6] at h
    have hpo10 : 10 ≤ po8 := by
      rw [hpo8]
      split <;> omega
    have h6' : ¬((hb ++ c).length < po8) := by
      rw [List.length_append]
      omega
    rw [if_neg h6']
    have hseg : ((hb ++ c).drop 2).take 8 = (hb.drop 2).take 8 := by
      rw [List.drop_append_eq_append_drop,
        Nat.sub_eq_zero_of_le (show 2 ≤ hb.length by omega), List.drop_zero,
        List.take_append_eq_append_take,
        Nat.sub_eq_zero_of_le (show 8 ≤ (hb.drop 2).length by
          rw [List.length_drop]; omega),
        List.take_zero, List.append_nil]
    rw [hseg]
    by_cases h7 : jsGe (jsReadDoubleBE8 ((hb.drop 2).take 8)) (MAX_SAFE_INTEGER : ℚ) = true
    · rw [if_pos h7] at h ⊢
      exact h
    rw [if_neg h7] at h ⊢
    obtain ⟨hlen, hnone, he⟩ := finishHeader_fail _ _ _ _ _ _ _ _ _ _ h
    subst he
    exact finishHeader_fail_intro _ _ _ _ _ _ _ _ _ (by rw [List.length_append]; omega) hnone
  · rw [if_neg h5] at h
    exact absurd h (finishHeader_natCast_ne_fail _ _ _ _ _ _ _ _ _ _)

theorem log2_65536 : Nat.log2 65536 = 16 :=
  Nat.le_antisymm (Nat.lt_succ_iff.mp ((Nat.log2_lt (by norm_num)).mpr (by norm_num)))
    ((Nat.le_log2 (by norm_num)).mpr (by norm_num))

/-- The IEEE 754 binary64 big-endian encoding of 65536. -/
theorem jsWrite_65536 : jsWriteDoubleBE8 65536 = [64, 240, 0, 0, 0, 0, 0, 0] := by
  simp only [jsWriteDoubleBE8, log2_65536, be8]
  norm_num

/-- The bytes of the big-endian **uint64** encoding of 65536, decoded as an
IEEE 754 binary64 value: a subnormal far below 1. -/
theorem jsRead_uint64_65536 : jsReadDoubleBE8 [0, 0, 0, 0, 0, 1, 0, 0] =
    JsNum.fin ((65536 : ℚ) * (2 : ℚ) ^ ((1 : ℤ) - 1075)) := by
  simp only [jsReadDoubleBE8, beVal, List.take, List.foldl]
  norm_num

theorem uint64_65536_pos : (0 : ℚ) < (65536 : ℚ) * (2 : ℚ) ^ ((1 : ℤ) - 1075) := by
  positivity

theorem uint64_65536_lt_one : (65536 : ℚ) * (2 : ℚ) ^ ((1 : ℤ) - 1075) < 1 := by
  rw [show ((1 : ℤ) - 1075) = -((1074 : ℕ) : ℤ) by norm_num, zpow_neg, zpow_natCast,
    ← div_eq_mul_inv, div_lt_one (by positivity)]
  norm_num

/-- The 64-bit length branch of `extractHeader` on an unmasked header whose
double value survives the threshold check and allocates: the parse completes
with the truncated payload length. -/
theorem parseOne_ext64_trunc (hb : List Nat)
    (hc1 : (hb.getD 0 0 &&& RSV == 0) = true)
    (hc2 : (VALID_OPCODES.getD (hb.getD 0 0 &&& OPCODE) 0 == 1) = true)
    (hc3 : (FRAGMENTED_OPCODES.getD (hb.getD 0 0 &&& OPCODE) 0 != 1
      && !(hb.getD 0 0 &&& FIN == FIN)) = false)
    (h127 : (hb.getD 1 0 &&& LENGTH == 127) = true)
    (hm : (hb.getD 1 0 &&& MASK == MASK) = false)
    (h10 : 10 ≤ hb.length)
    (hgef : jsGe (jsReadDoubleBE8 ((hb.drop 2).take 8)) ((MAX_SAFE_INTEGER : ℕ) : ℚ) = false)
    (n : Nat) (htr : toBufferSize (jsReadDoubleBE8 ((hb.drop 2).take 8)) = some n)
    (hcomp : n + 10 ≤ hb.length) :
    ∃ hdr : Header, parseOne hb = ParseResult.complete hdr ∧
      hdr.payloadLength = n ∧ hdr.payloadOffset = 2 + 8 ∧
      hdr.opcode = hb.getD 0 0 &&& OPCODE ∧ hdr.isMasked = (hb.getD 1 0 &&& MASK == MASK) := by
  have h2 : ¬(hb.length < 2) := by omega
  have hx : hb.getD 1 0 &&& LENGTH = 127 := by simpa using h127
  have hc4 : ((hb.getD 1 0 &&& LENGTH) == 126) = false := by
    rw [hx]
    decide
  have hred : parseOne hb = ParseResult.complete
      ⟨true, (hb.getD 0 0 &&& FIN == FIN), hb.getD 0 0 &&& OPCODE, true,
        (hb.getD 0 0 &&& OPCODE == 0), false, n, 2 + 8,
        buf4 (jsSlice hb (((2 + 8 : Nat) : Int) - 4) ((2 + 8 : Nat) : Int))⟩ := by
    simp only [parseOne, if_neg h2, hc1, hc2, hc3, hc4, h127, hm, Bool.not_true,
      Bool.false_eq_true, if_false, if_true]
    rw [if_neg (show ¬(hb.length < 2 + 8) by omega), hgef, if_neg (by simp)]
    unfold finishHeader
    rw [if_neg (show ¬(hb.length < 2 + 8) by omega), htr]
    simp only []
    rw [if_pos (show n + (2 + 8) ≤ hb.length by omega)]
  exact ⟨_, hred, rfl, rfl, rfl, hm.symm⟩

/-- C4 (amended): for a frame whose 7-bit length field is 127, `extractHeader`
reads bytes [2..10) as an IEEE 754 binary64 value via `readDoubleBE` (not as a
big-endian uint64).  For a well-formed binary64 encoding of an integer `n`,
the parsed payload length is `n` and `payloadOffset` is 10 (14 when masked),
and the `UnsupportedLength` error fires exactly when
`n ≥ Number.MAX_SAFE_INTEGER = 2 ^ 53 - 1` (not `2 ^ 53`). -/
theorem C4_ext64_read (hb : List Nat) (n : Nat)
    (hrsv : hb.getD 0 0 &&& RSV = 0)
    (hvo : VALID_OPCODES.getD (hb.getD 0 0 &&& OPCODE) 0 = 1)
    (hfin : FRAGMENTED_OPCODES.getD (hb.getD 0 0 &&& OPCODE) 0 = 1 ∨
      hb.getD 0 0 &&& FIN = FIN)
    (h127 : hb.getD 1 0 &&& LENGTH = 127)
    (hext : (hb.drop 2).take 8 = jsWriteDoubleBE8 n) (hn : 65535 < n) (hn53 : n < 2 ^ 53)
    (hpo : (if hb.getD 1 0 &&& MASK = MASK then 14 else 10) ≤ hb.length) :
    (MAX_SAFE_INTEGER ≤ n → parseOne hb = ParseResult.fail DecErr.unsupportedLength) ∧
    (n < MAX_SAFE_INTEGER → ∃ hdr : Header,
      parseOne hb =
        (if n + (if hb.getD 1 0 &&& MASK = MASK then 14 else 10) ≤ hb.length
          then ParseResult.complete hdr else ParseResult.midFrame hdr) ∧
      hdr.payloadLength = n ∧
      hdr.payloadOffset = (if hb.getD 1 0 &&& MASK = MASK then 14 else 10)) := by
  have hc1 : (hb.getD 0 0 &&& RSV == 0) = true := by
    rw [hrsv]
    decide
  have hc2 : (VALID_OPCODES.getD (hb.getD 0 0 &&& OPCODE) 0 == 1) = true := by
    rw [hvo]
    decide
  have hc3 : (FRAGMENTED_OPCODES.getD (hb.getD 0 0 &&& OPCODE) 0 != 1
      && !(hb.getD 0 0 &&& FIN == FIN)) = false := by
    rcases hfin with hfr | hfn
    · rw [hfr]
      rfl
    · rw [hfn]
      simp
  have hc4 : ((hb.getD 1 0 &&& LENGTH) == 126) = false := by
    rw [h127]
    decide
  have hc5 : ((hb.getD 1 0 &&& LENGTH) == 127) = true := by
    rw [h127]
    decide
  by_cases hmp : hb.getD 1 0 &&& MASK = MASK
  · have hmb : (hb.getD 1 0 &&& MASK == MASK) = true := by
      rw [hmp]
      decide
    rw [if_pos hmp] at hpo
    simp only [if_pos hmp]
    have h2 : ¬(hb.length < 2) := by omega
    have hred : parseOne hb =
        if jsGe (JsNum.fin (n : ℚ)) ((MAX_SAFE_INTEGER : ℕ) : ℚ) = true then
          ParseResult.fail DecErr.unsupportedLength
        else
          finishHeader hb (hb.getD 0 0 &&& RSV == 0) (hb.getD 0 0 &&& FIN == FIN)
            (hb.getD 0 0 &&& OPCODE) (VALID_OPCODES.getD (hb.getD 0 0 &&& OPCODE) 0 == 1)
            (hb.getD 0 0 &&& OPCODE == 0) (hb.getD 1 0 &&& MASK == MASK)
            (JsNum.fin (n : ℚ)) 14 := by
      simp only [parseOne, if_neg h2, hc1, hc2, hc3, hc4, hc5, hmb, Bool.not_true,
        Bool.false_eq_true, if_false, if_true, reduceIte, Nat.reduceAdd]
      rw [if_neg (show ¬(hb.length < 14) by omega), hext,
        jsRead_jsWrite n (by omega) hn53]
    refine ⟨fun hge => ?_, fun hlt => ?_⟩
    · rw [hred, if_pos (by rw [jsGe_natCast]; exact decide_eq_true hge)]
    · rw [hred, if_neg (by rw [jsGe_natCast]; simp only [decide_eq_true_eq]; omega),
        finishHeader_spec hb _ _ _ _ _ _ n 14 (by omega)]
      exact ⟨_, rfl, rfl, rfl⟩
  · have hmb : (hb.getD 1 0 &&& MASK == MASK) = false := by
      simpa using hmp
    rw [if_neg hmp] at hpo
    simp only [if_neg hmp]
    have h2 : ¬(hb.length < 2) := by omega
    have hred : parseOne hb =
        if jsGe (JsNum.fin (n : ℚ)) ((MAX_SAFE_INTEGER : ℕ) : ℚ) = true then
          ParseResult.fail DecErr.unsupportedLength
        else
          finishHeader hb (hb.getD 0 0 &&& RSV == 0) (hb.getD 0 0 &&& FIN == FIN)
            (hb.getD 0 0 &&& OPCODE) (VALID_OPCODES.getD (hb.getD 0 0 &&& OPCODE) 0 == 1)
            (hb.getD 0 0 &&& OPCODE == 0) (hb.getD 1 0 &&& MASK == MASK)
            (JsNum.fin (n : ℚ)) 10 := by
      simp only [parseOne, if_neg h2, hc1, hc2, hc3, hc4, hc5, hmb, Bool.not_true,
        Bool.false_eq_true, if_false, if_true, reduceIte, Nat.reduceAdd]
      rw [if_neg (show ¬(hb.length < 10) by omega), hext,
        jsRead_jsWrite n (by omega) hn53]
    refine ⟨fun hge => ?_, fun hlt => ?_⟩
    · rw [hred, if_pos (by rw [jsGe_natCast]; exact decide_eq_true hge)]
    · rw [hred, if_neg (by rw [jsGe_natCast]; simp only [decide_eq_true_eq]; omega),
        finishHeader_spec hb _ _ _ _ _ _ n 10 (by omega)]
      exact ⟨_, rfl, rfl, rfl⟩

/-- C4, counterexample to the uint64 reading: the frame `82 7f` followed by
the big-endian **uint64** encoding of 65536 is not parsed with payload
length 65536 (which is far below `2 ^ 53`).  The bytes are decoded as an
IEEE 754 double — a subnormal fraction — which `Buffer.alloc` truncates to
an empty payload, so the decoder emits `(BINARY, [])` with no error,
consuming the whole 10-byte chunk, instead of waiting for a 65536-byte
payload. -/
theorem C4_counterexample :
    beVal ((([130, 127, 0, 0, 0, 0, 0, 1, 0, 0] : List Nat).drop 2).take 8) = 65536 ∧
    (65536 : Nat) < 2 ^ 53 ∧
    transform initState [130, 127, 0, 0, 0, 0, 0, 1, 0, 0] =
      (initState, [Ev.frame 2 []]) := by
  refine ⟨by decide, by decide, ?_⟩
  have hv : jsReadDoubleBE8 ((([130, 127, 0, 0, 0, 0, 0, 1, 0, 0] : List Nat).drop 2).take 8) =
      JsNum.fin ((65536 : ℚ) * (2 : ℚ) ^ ((1 : ℤ) - 1075)) := jsRead_uint64_65536
  have hgef : jsGe (jsReadDoubleBE8
      ((([130, 127, 0, 0, 0, 0, 0, 1, 0, 0] : List Nat).drop 2).take 8))
      ((MAX_SAFE_INTEGER : ℕ) : ℚ) = false := by
    rw [hv]
    simp only [jsGe]
    apply decide_eq_false
    intro hcon
    have hbig : ((MAX_SAFE_INTEGER : ℕ) : ℚ) < 1 :=
      lt_of_le_of_lt hcon uint64_65536_lt_one
    norm_num [MAX_SAFE_INTEGER] at hbig
  have htr : toBufferSize (jsReadDoubleBE8
      ((([130, 127, 0, 0, 0, 0, 0, 1, 0, 0] : List Nat).drop 2).take 8)) = some 0 := by
    rw [hv]
    simp only [toBufferSize]
    rw [if_pos (le_of_lt uint64_65536_pos),
      Int.floor_eq_zero_iff.mpr ⟨le_of_lt uint64_65536_pos, uint64_65536_lt_one⟩]
    rfl
  obtain ⟨hdr, hp, hlen0, hpo, hop2, hmk⟩ := parseOne_ext64_trunc
    [130, 127, 0, 0, 0, 0, 0, 1, 0, 0] (by decide) (by decide) (by decide) (by decide)
    (by decide) (by decide) hgef 0 htr (by decide)
  have hgo := go_complete [130, 127, 0, 0, 0, 0, 0, 1, 0, 0] hdr hp
  rw [hlen0, hpo] at hgo
  rw [if_neg (by decide)] at hgo
  have ht : transform initState [130, 127, 0, 0, 0, 0, 0, 1, 0, 0] =
      go ([] ++ [130, 127, 0, 0, 0, 0, 0, 1, 0, 0]) := rfl
  rw [ht, List.nil_append, hgo, hop2, hmk]
  rfl

/-- Witness for C4: an unmasked final BINARY frame with length field 127 and
a well-formed binary64 length encoding of 65536, supplied exactly up to the
header: the parse lands mid-frame with length 65536 and offset 10. -/
theorem C4_witness :
    (MAX_SAFE_INTEGER ≤ 65536 → parseOne [130, 127, 64, 240, 0, 0, 0, 0, 0, 0] =
        ParseResult.fail DecErr.unsupportedLength) ∧
    (65536 < MAX_SAFE_INTEGER → ∃ hdr : Header,
      parseOne [130, 127, 64, 240, 0, 0, 0, 0, 0, 0] = ParseResult.midFrame hdr ∧
      hdr.payloadLength = 65536 ∧ hdr.payloadOffset = 10) :=
  C4_ext64_read [130, 127, 64, 240, 0, 0, 0, 0, 0, 0] 65536 (by decide) (by decide)
    (by decide) (by decide) (by rw [jsWrite_65536]; decide) (by decide) (by decide) (by decide)

/-- C5 (amended): `_buildFrame` encodes the extended length as a big-endian
uint16 at bytes [2..4) for `125 < L ≤ 65535`, but for `L > 65535` it writes
the IEEE 754 binary64 encoding of `L` at bytes [2..10) via `writeDoubleBE`
(not a big-endian uint64), and it errors (returning no frame) exactly when
`L ≥ Number.MAX_SAFE_INTEGER = 2 ^ 53 - 1` (not `2 ^ 53`). -/
theorem C5_build_ext_encoding (m : Bool) (mask buffer : List Nat) (op : Nat)
    (hm4 : m = true → mask.length = 4) :
    (MAX_SAFE_INTEGER ≤ buffer.length → buildFrame m mask buffer op = none) ∧
    (buffer.length < MAX_SAFE_INTEGER →
      ∃ w, buildFrame m mask buffer op = some w ∧
        (125 < buffer.length → buffer.length ≤ 65535 →
          (w.drop 2).take 2 = [buffer.length / 256, buffer.length % 256]) ∧
        (65535 < buffer.length →
          (w.drop 2).take 8 = jsWriteDoubleBE8 buffer.length)) := by
  constructor
  · intro hge
    unfold buildFrame
    rw [if_pos hge]
  · intro hlt
    refine ⟨_, buildFrame_eq_bytes m mask buffer op hlt hm4, ?_, ?_⟩
    · intro hA hB
      simp only [FrameSpec.bytes, List.append_assoc, List.cons_append, List.nil_append,
        List.drop_succ_cons, List.drop_zero,
        show (⟨true, op, m, mask, buffer⟩ : FrameSpec).payload = buffer from rfl]
      rw [show extBytes buffer.length = [buffer.length / 256, buffer.length &&& BYTE] from by
        unfold extBytes
        rw [if_neg (by omega), if_pos hB]]
      rw [List.take_left'
          (show ([buffer.length / 256, buffer.length &&& BYTE] : List Nat).length = 2 from rfl),
        show BYTE = 2 ^ 8 - 1 from rfl, Nat.and_pow_two_sub_one_eq_mod]
    · intro hC
      simp only [FrameSpec.bytes, List.append_assoc, List.cons_append, List.nil_append,
        List.drop_succ_cons, List.drop_zero,
        show (⟨true, op, m, mask, buffer⟩ : FrameSpec).payload = buffer from rfl]
      rw [show extBytes buffer.length = jsWriteDoubleBE8 buffer.length from by
        unfold extBytes
        rw [if_neg (by omega), if_neg (by omega)]]
      rw [List.take_left' (show (jsWriteDoubleBE8 buffer.length).length = 8 from rfl)]

/-- The serialized bytes of an unmasked final frame in the 64-bit length
class. -/
theorem bytes_unmasked_ext64 (op : Nat) (p : List Nat) (h : 65535 < p.length) :
    FrameSpec.bytes ⟨true, op, false, [], p⟩ =
      [FIN ||| op, 127] ++ jsWriteDoubleBE8 p.length ++ p := by
  unfold FrameSpec.bytes FrameSpec.wireBody lenField extBytes
  simp only [show (⟨true, op, false, [], p⟩ : FrameSpec).payload = p from rfl,
    show (⟨true, op, false, [], p⟩ : FrameSpec).masked = false from rfl,
    show (⟨true, op, false, [], p⟩ : FrameSpec).opcode = op from rfl,
    show (⟨true, op, false, [], p⟩ : FrameSpec).fin = true from rfl,
    Bool.false_eq_true, if_false, reduceIte,
    if_neg (show ¬(p.length ≤ 125) by omega), if_neg (show ¬(p.length ≤ 65535) by omega),
    List.append_nil, Nat.zero_or]

/-- C5, counterexample to the uint64 encoding and the `2 ^ 53` threshold:
for a 65536-byte payload the builder writes the binary64 image
`40 f0 00 00 00 00 00 00` at bytes [2..10), not the uint64 image of 65536;
and for a payload of length `2 ^ 53 - 1` (which is below `2 ^ 53`) it
refuses to build a frame at all. -/
theorem C5_counterexample :
    buildFrame false [] (List.replicate 65536 0) 2 =
      some ([130, 127] ++ jsWriteDoubleBE8 65536 ++ List.replicate 65536 0) ∧
    jsWriteDoubleBE8 65536 = [64, 240, 0, 0, 0, 0, 0, 0] ∧
    beVal [64, 240, 0, 0, 0, 0, 0, 0] ≠ 65536 ∧
    buildFrame false [] (List.replicate (2 ^ 53 - 1) 0) 2 = none := by
  refine ⟨?_, jsWrite_65536, by decide, ?_⟩
  · rw [buildFrame_eq_bytes false [] (List.replicate 65536 0) 2
      (by rw [List.length_replicate]; decide) (fun h => absurd h (by decide))]
    rw [bytes_unmasked_ext64 2 (List.replicate 65536 0)
      (by rw [List.length_replicate]; decide)]
    rw [List.length_replicate]
    rfl
  · unfold buildFrame
    rw [if_pos (by rw [List.length_replicate]; unfold MAX_SAFE_INTEGER; omega)]

/-- Witness for C5: an unmasked 300-byte payload, in the uint16 class. -/
theorem C5_witness :
    (MAX_SAFE_INTEGER ≤ (List.replicate 300 7 : List Nat).length →
        buildFrame false [] (List.replicate 300 7) 2 = none) ∧
    ((List.replicate 300 7 : List Nat).length < MAX_SAFE_INTEGER →
      ∃ w, buildFrame false [] (List.replicate 300 7) 2 = some w ∧
        (125 < (List.replicate 300 7 : List Nat).length →
          (List.replicate 300 7 : List Nat).length ≤ 65535 →
          (w.drop 2).take 2 = [(List.replicate 300 7 : List Nat).length / 256,
            (List.replicate 300 7 : List Nat).length % 256]) ∧
        (65535 < (List.replicate 300 7 : List Nat).length →
          (w.drop 2).take 8 = jsWriteDoubleBE8 (List.replicate 300 7 : List Nat).length)) :=
  C5_build_ext_encoding false [] (List.replicate 300 7) 2 (by decide)

/-- C1 (amended): for every known opcode, masking flag, and byte payload of
length **below `2 ^ 53 - 1`** (`Number.MAX_SAFE_INTEGER`), decoding the built
frame yields exactly the one notification `(op, p)`. -/
theorem C1_roundtrip (m : Bool) (mask p : List Nat) (op : Nat)
    (hop : op = 0 ∨ op = 1 ∨ op = 2 ∨ op = 8 ∨ op = 9 ∨ op = 10)
    (hm : m = true → mask.length = 4 ∧ ∀ b ∈ mask, b < 256)
    (hp : ∀ b ∈ p, b < 256) (hlen : p.length < MAX_SAFE_INTEGER) :
    ∃ w, buildFrame m mask p op = some w ∧
      (transform initState w).2 = [Ev.frame op p] := by
  have hval : FrameSpec.Valid ⟨true, op, m, mask, p⟩ := ⟨hop, fun _ => rfl, hm, hp, hlen⟩
  refine ⟨_, buildFrame_eq_bytes m mask p op hlen (fun h => (hm h).1), ?_⟩
  have hval1 : ∀ g ∈ [(⟨true, op, m, mask, p⟩ : FrameSpec)], g.Valid := by
    intro g hg
    rw [List.mem_singleton] at hg
    subst hg
    exact hval
  have hstream : FrameSpec.bytes ⟨true, op, m, mask, p⟩ ++ [] =
      streamBytes [⟨true, op, m, mask, p⟩] := by
    simp [streamBytes]
  obtain ⟨hev, _, _⟩ := go_spec [⟨true, op, m, mask, p⟩] hval1
    (FrameSpec.bytes ⟨true, op, m, mask, p⟩) [] hstream
  have ht : transform initState (FrameSpec.bytes ⟨true, op, m, mask, p⟩) =
      go ([] ++ FrameSpec.bytes ⟨true, op, m, mask, p⟩) := rfl
  rw [ht, List.nil_append, hev,
    bytes_length (⟨true, op, m, mask, p⟩ : FrameSpec) (fun h => (hm h).1),
    adv_ge _ _ _ (le_refl _), Nat.sub_self]
  rfl

/-- C1, counterexample at the claimed bound: a payload of length
`2 ^ 53 - 1 < 2 ^ 53` is refused by `_buildFrame` (the threshold is
`Number.MAX_SAFE_INTEGER = 2 ^ 53 - 1`, not `2 ^ 53`), so no notification
can be produced for it. -/
theorem C1_counterexample :
    (List.replicate (2 ^ 53 - 1) 0 : List Nat).length < 2 ^ 53 ∧
    buildFrame false [] (List.replicate (2 ^ 53 - 1) 0) 2 = none := by
  constructor
  · rw [List.length_replicate]
    decide
  · unfold buildFrame
    rw [if_pos (by rw [List.length_replicate]; unfold MAX_SAFE_INTEGER; omega)]

/-- Witness for C1: a one-byte unmasked TEXT frame round-trips. -/
theorem C1_witness :
    ∃ w, buildFrame false [] [65] 1 = some w ∧
      (transform initState w).2 = [Ev.frame 1 [65]] :=
  C1_roundtrip false [] [65] 1 (by decide) (by decide) (by decide) (by decide)

/-- C2: feeding any chunking of a stream of valid frames produces the same
event sequence as feeding the whole stream in one write. -/
theorem C2_chunk_invariance (fs : List FrameSpec) (hval : ∀ f ∈ fs, f.Valid)
    (cs : List (List Nat)) (hcs : cs.flatten = streamBytes fs) :
    (feedChunks initState cs).2 = (feedChunks initState [streamBytes fs]).2 := by
  obtain ⟨h1, _, _⟩ := feedChunks_spec cs fs hval 0 initState [] (MidP_zero fs)
    (by rw [remBytes_zero, ← hcs]; simp)
  obtain ⟨h2, _, _⟩ := feedChunks_spec [streamBytes fs] fs hval 0 initState [] (MidP_zero fs)
    (by rw [remBytes_zero]; simp)
  rw [h1, h2]
  have hl : ([streamBytes fs] : List (List Nat)).flatten.length = cs.flatten.length := by
    simp [hcs]
  rw [hl]

/-- Witness for C2: a one-byte TEXT frame split into a 1-byte and a 2-byte
chunk. -/
theorem C2_witness :
    (feedChunks initState [[129], [1, 65]]).2 =
      (feedChunks initState [streamBytes [⟨true, 1, false, [], [65]⟩]]).2 :=
  C2_chunk_invariance [⟨true, 1, false, [], [65]⟩] (by decide) [[129], [1, 65]] (by decide)

/-- C3: a chunk whose first frame header has an RSV bit set, an opcode in
{3,…,7, 11,…,15}, or a control opcode without FIN makes the write surface a
decoder error and emit no frame. -/
theorem C3_rejection (c : List Nat) (h2 : 2 ≤ c.length)
    (hbad : c.getD 0 0 &&& RSV ≠ 0 ∨
      (c.getD 0 0 &&& OPCODE = 3 ∨ c.getD 0 0 &&& OPCODE = 4 ∨ c.getD 0 0 &&& OPCODE = 5 ∨
        c.getD 0 0 &&& OPCODE = 6 ∨ c.getD 0 0 &&& OPCODE = 7 ∨ c.getD 0 0 &&& OPCODE = 11 ∨
        c.getD 0 0 &&& OPCODE = 12 ∨ c.getD 0 0 &&& OPCODE = 13 ∨
        c.getD 0 0 &&& OPCODE = 14 ∨ c.getD 0 0 &&& OPCODE = 15) ∨
      ((c.getD 0 0 &&& OPCODE = 8 ∨ c.getD 0 0 &&& OPCODE = 9 ∨ c.getD 0 0 &&& OPCODE = 10) ∧
        c.getD 0 0 &&& FIN ≠ FIN)) :
    ∃ e, transform initState c = (⟨0, c, none, [], 0⟩, [Ev.err e]) := by
  have hnl : ¬(c.length < 2) := by omega
  have hfail : ∃ e, parseOne c = ParseResult.fail e := by
    by_cases hrsv : c.getD 0 0 &&& RSV = 0
    · have hc1 : (c.getD 0 0 &&& RSV == 0) = true := by
        rw [hrsv]
        decide
      rcases hbad with hb1 | hb2 | hb3
      · exact absurd hrsv hb1
      · have hc2 : (!(VALID_OPCODES.getD (c.getD 0 0 &&& OPCODE) 0 == 1)) = true := by
          rcases hb2 with h | h | h | h | h | h | h | h | h | h <;> rw [h] <;> decide
        refine ⟨DecErr.invalidOpcode, ?_⟩
        simp only [parseOne, if_neg hnl, hc1, Bool.not_true, Bool.false_eq_true, if_false]
        rw [if_pos hc2]
      · obtain ⟨hop, hfin⟩ := hb3
        have hc2 : (!(VALID_OPCODES.getD (c.getD 0 0 &&& OPCODE) 0 == 1)) = false := by
          rcases hop with h | h | h <;> rw [h] <;> decide
        have hc3 : (FRAGMENTED_OPCODES.getD (c.getD 0 0 &&& OPCODE) 0 != 1
            && !(c.getD 0 0 &&& FIN == FIN)) = true := by
          have hx1 : (FRAGMENTED_OPCODES.getD (c.getD 0 0 &&& OPCODE) 0 != 1) = true := by
            rcases hop with h | h | h <;> rw [h] <;> decide
          have hx2 : (c.getD 0 0 &&& FIN == FIN) = false := beq_eq_false_iff_ne.mpr hfin
          rw [hx1, hx2]
          decide
        refine ⟨DecErr.expectedFinal, ?_⟩
        simp only [parseOne, if_neg hnl, hc1, Bool.not_true, Bool.false_eq_true, if_false,
          hc2, if_pos hc3]
    · have hc1 : (!(c.getD 0 0 &&& RSV == 0)) = true := by
        rw [beq_eq_false_iff_ne.mpr hrsv]
        decide
      refine ⟨DecErr.rsvNotZero, ?_⟩
      simp only [parseOne, if_neg hnl]
      rw [if_pos hc1]
  obtain ⟨e, he⟩ := hfail
  refine ⟨e, ?_⟩
  have ht : transform initState c = go ([] ++ c) := rfl
  rw [ht, List.nil_append]
  exact go_fail c e he

/-- Witness for C3: a two-byte chunk with RSV bits set. -/
theorem C3_witness :
    ∃ e, transform initState [241, 0] = (⟨0, [241, 0], none, [], 0⟩, [Ev.err e]) :=
  C3_rejection [241, 0] (by decide) (by decide)

/-- C6 (amended): after a parse failure the decoder does **not** stop and
does not surface the error only once: the offending bytes remain in
`headerBuffer`, and every subsequent write appends to them, re-parses, and
surfaces the same error again. -/
theorem C6_error_replay (hb c : List Nat) (e : DecErr)
    (hfail : parseOne hb = ParseResult.fail e) :
    transform ⟨0, hb, none, [], 0⟩ c = (⟨0, hb ++ c, none, [], 0⟩, [Ev.err e]) ∧
      parseOne (hb ++ c) = ParseResult.fail e := by
  have hnext := parseOne_fail_append hb c e hfail
  have ht : transform (⟨0, hb, none, [], 0⟩ : DecState) c = go (hb ++ c) := rfl
  exact ⟨by rw [ht]; exact go_fail (hb ++ c) e hnext, hnext⟩

/-- C6, counterexample to surfacing the error exactly once: after the RSV
error on `f1 00`, a further write of a fresh byte surfaces the same error a
second time. -/
theorem C6_counterexample :
    (transform initState [241, 0]).2 = [Ev.err DecErr.rsvNotZero] ∧
    (transform (transform initState [241, 0]).1 [129]).2 = [Ev.err DecErr.rsvNotZero] := by
  decide

/-- Witness for C6: the RSV-violating bytes `f1 00` replay their error on the
next write. -/
theorem C6_witness :
    transform ⟨0, [241, 0], none, [], 0⟩ [129] =
        (⟨0, [241, 0] ++ [129], none, [], 0⟩, [Ev.err DecErr.rsvNotZero]) ∧
      parseOne ([241, 0] ++ [129]) = ParseResult.fail DecErr.rsvNotZero :=
  C6_error_replay [241, 0] [129] DecErr.rsvNotZero (by decide)

/-- C7: a valid frame with an empty payload is emitted (with an empty
payload) by the same write that completes its header, and the decoder
returns to its initial state. -/
theorem C7_zero_payload (f : FrameSpec) (hval : f.Valid) (hp : f.payload = [])
    (k : Nat) (hk : k < f.headerLen) :
    transform ⟨0, f.bytes.take k, none, [], 0⟩ (f.bytes.drop k) =
      (initState, [Ev.frame f.opcode []]) := by
  have hval1 : ∀ g ∈ [f], g.Valid := by
    intro g hg
    rw [List.mem_singleton] at hg
    subst hg
    exact hval
  have hklen : k < f.len := lt_of_lt_of_le hk (headerLen_le_len f)
  have hmid : MidP [f] k ⟨0, f.bytes.take k, none, [], 0⟩ := ⟨hklen, Or.inl ⟨hk, rfl⟩⟩
  have hcT : f.bytes.drop k ++ [] = remBytes [f] k := by
    simp [remBytes, streamBytes]
  obtain ⟨hev, hmid2, _⟩ := transform_spec [f] hval1 k _ hmid _ [] hcT
  have hbl : f.bytes.length = f.len := bytes_length f (fun h => (hval.2.2.1 h).1)
  have hlen : k + (f.bytes.drop k).length = f.len := by
    rw [List.length_drop, hbl]
    omega
  have hadv : adv [f] f.len = ([f], [], 0) := by
    rw [adv_ge f [] f.len (le_refl _), Nat.sub_self]
    rfl
  rw [hlen, hadv] at hev hmid2
  obtain ⟨_, hs⟩ := hmid2
  show ((transform ⟨0, f.bytes.take k, none, [], 0⟩ (f.bytes.drop k)).1,
      (transform ⟨0, f.bytes.take k, none, [], 0⟩ (f.bytes.drop k)).2) =
    (initState, [Ev.frame f.opcode []])
  rw [hs, hev]
  show (initState, List.map idealEv [f]) = (initState, [Ev.frame f.opcode []])
  simp only [List.map_cons, List.map_nil, idealEv, hp]

/-- Witness for C7: an empty PING frame, with one header byte buffered and
the second byte arriving in the write. -/
theorem C7_witness :
    transform ⟨0, (FrameSpec.bytes ⟨true, 9, false, [], []⟩).take 1, none, [], 0⟩
        ((FrameSpec.bytes ⟨true, 9, false, [], []⟩).drop 1) =
      (initState, [Ev.frame 9 []]) :=
  C7_zero_payload ⟨true, 9, false, [], []⟩ (by decide) rfl 1 (by decide)

/-- C8: masking twice with the same 4-byte mask (and the same offset)
restores the buffer exactly. -/
theorem C8_mask_involution (b m : List Nat) (o : Nat) (hm : m.length = 4) :
    applyMask (applyMask b m o) m o = b :=
  applyMask_applyMask b m o

/-- Witness for C8: a 5-byte buffer and a concrete 4-byte mask. -/
theorem C8_witness :
    ([7, 11, 13, 17] : List Nat).length = 4 ∧
      applyMask (applyMask [1, 2, 3, 4, 5] [7, 11, 13, 17] 0) [7, 11, 13, 17] 0 =
        [1, 2, 3, 4, 5] :=
  ⟨rfl, C8_mask_involution [1, 2, 3, 4, 5] [7, 11, 13, 17] 0 rfl⟩

/-- C10: masking from offset `k` keeps the length and leaves the first `k`
bytes untouched. -/
theorem C10_mask_offset (b m : List Nat) (k : Nat) (hk : k ≤ b.length) :
    (applyMask b m k).length = b.length ∧ (applyMask b m k).take k = b.take k := by
  refine ⟨applyMask_length b m k, ?_⟩
  rcases eq_or_ne m [] with hm | hm
  · unfold applyMask
    simp [hm]
  · apply List.ext_getElem (by simp [applyMask_length])
    intro i h1 h2
    have hi : i < k ∧ i < b.length := by
      have := h1
      simp only [List.length_take, applyMask_length, lt_min_iff] at this
      exact this
    rw [List.getElem_take, List.getElem_take,
      applyMask_getElem b m k i hm hi.2 (by rw [applyMask_length]; exact hi.2),
      if_neg (by omega)]

/-- Witness for C10: offset 2 into a 3-byte buffer. -/
theorem C10_witness :
    (2 : Nat) ≤ ([1, 2, 3] : List Nat).length ∧
      ((applyMask [1, 2, 3] [5, 5, 5, 5] 2).length = ([1, 2, 3] : List Nat).length ∧
        (applyMask [1, 2, 3] [5, 5, 5, 5] 2).take 2 = ([1, 2, 3] : List Nat).take 2) :=
  ⟨by decide, C10_mask_offset [1, 2, 3] [5, 5, 5, 5] 2 (by decide)⟩

/-- The mask bytes of a masked serialized frame, extracted with the
`slice`-`copy` idiom of the older decoder iteration. -/
theorem mask_extract_drop (f : FrameSpec) (hf4 : f.mask.length = 4) (hmm : f.masked = true) :
    buf4 ((f.bytes.drop (f.headerLen - 4)).take 4) = f.mask := by
  rw [FrameSpec.bytes, show (if f.masked then f.mask else []) = f.mask from by rw [hmm]; rfl,
    List.append_assoc ([(if f.fin then FIN else 0) ||| f.opcode,
      (if f.masked then MASK else 0) ||| lenField f.payload.length] ++
      extBytes f.payload.length)]
  rw [List.drop_left' (show ([(if f.fin then FIN else 0) ||| f.opcode,
      (if f.masked then MASK else 0) ||| lenField f.payload.length] ++
      extBytes f.payload.length).length = f.headerLen - 4 from by
    simp only [List.length_append, List.length_cons, List.length_nil, FrameSpec.headerLen,
      hmm, if_pos]
    omega)]
  rw [List.take_left' hf4]
  unfold buf4
  rw [List.take_of_length_le (le_of_eq hf4), hf4]
  simp

end wsp

namespace Proto

/-- `processChunk` on one whole serialized valid final frame with a small
(`≤ 65535`) payload: the frame is consumed to its end, and a notification is
produced exactly for the TEXT, PING and CLOSE opcodes. -/
theorem processChunk_frame (f : wsp.FrameSpec) (hf : f.Valid) (hfin : f.fin = true)
    (hsmall : f.payload.length ≤ 65535) (itr : Nat) (hitr : itr ≤ 100) :
    processChunk itr f.bytes 0 =
      PResult.ok (if f.opcode = 1 ∨ f.opcode = 9 ∨ f.opcode = 8
        then [(f.opcode, f.payload)] else []) f.len := by
  have hm4 : f.masked = true → f.mask.length = 4 := fun h => (hf.2.2.1 h).1
  have hb0 : f.bytes.getD 0 0 = (if f.fin then wsp.FIN else 0) ||| f.opcode := wsp.bytes_getD0 f
  have hb1 : f.bytes.getD 1 0 = (if f.masked then wsp.MASK else 0) |||
      wsp.lenField f.payload.length := wsp.bytes_getD1 f
  obtain ⟨hrsv, hop, hfinb⟩ := wsp.packB0 f.fin f.opcode (wsp.valid_opcode_lt f hf)
  obtain ⟨hmaskbit, hlen7⟩ := wsp.packB1 f.masked (wsp.lenField f.payload.length)
    (wsp.lenField_le _)
  have hfinb' := hfinb.trans hfin
  simp only [processChunk, if_neg (show ¬(100 < itr) by omega), List.drop_zero,
    hb0, hb1, hrsv, hop, hfinb', hmaskbit, hlen7, wsp.valid_opcode_pass f hf,
    beq_self_eq_true, Bool.not_true, Bool.and_false, Bool.false_eq_true, if_false]
  by_cases hA : f.payload.length ≤ 125
  · have hlf : wsp.lenField f.payload.length = f.payload.length := by
      unfold wsp.lenField
      rw [if_pos hA]
    have h126 : (f.payload.length == 126) = false := beq_eq_false_iff_ne.mpr (by omega)
    have h127 : (f.payload.length == 127) = false := beq_eq_false_iff_ne.mpr (by omega)
    simp only [hlf, h126, h127, Bool.false_eq_true, if_false]
    rcases hmc : f.masked with _ | _
    · simp only [hmc, Bool.false_eq_true, if_false]
      have hhl : f.headerLen = 2 := by
        unfold wsp.FrameSpec.headerLen
        rw [wsp.extBytes_length, if_pos hA, hmc]
        simp
      have hw : (f.bytes.drop 2).take f.payload.length = f.payload := by
        rw [← hhl, wsp.bytes_drop_headerLen f hm4,
          List.take_of_length_le (le_of_eq (wsp.wireBody_length f))]
        unfold wsp.FrameSpec.wireBody
        rw [hmc]
        simp
      rw [hw]
      simp only [Nat.sub_self, List.replicate, List.append_nil]
      rw [show 0 + (f.payload.length + 2) = f.len from by
        unfold wsp.FrameSpec.len
        omega]
    · have hmask4 := hm4 hmc
      simp only [hmc, reduceIte]
      have hhl : f.headerLen = 6 := by
        unfold wsp.FrameSpec.headerLen
        rw [wsp.extBytes_length, if_pos hA, hmc]
        simp
      have hmask : wsp.buf4 ((f.bytes.drop (2 + 4 - 4)).take 4) = f.mask := by
        have h := wsp.mask_extract_drop f hmask4 hmc
        rw [hhl] at h
        exact h
      have hw : (f.bytes.drop (2 + 4)).take f.payload.length =
          wsp.applyMask f.payload f.mask 0 := by
        rw [show (2 + 4 : Nat) = f.headerLen from by omega,
          wsp.bytes_drop_headerLen f hm4,
          List.take_of_length_le (le_of_eq (wsp.wireBody_length f))]
        unfold wsp.FrameSpec.wireBody
        rw [hmc]
        simp
      rw [hmask, hw]
      simp only [wsp.applyMask_length, Nat.sub_self, List.replicate, List.append_nil]
      rw [wsp.applyMask_applyMask]
      rw [show 0 + (f.payload.length + (2 + 4)) = f.len from by
        unfold wsp.FrameSpec.len
        omega]
  · have hlf : wsp.lenField f.payload.length = 126 := by
      unfold wsp.lenField
      rw [if_neg hA, if_pos hsmall]
    have hext : wsp.extBytes f.payload.length =
        [f.payload.length / 256, f.payload.length &&& wsp.BYTE] := by
      unfold wsp.extBytes
      rw [if_neg hA, if_pos hsmall]
    have hg2 : f.bytes.getD 2 0 = f.payload.length / 256 := by
      rw [wsp.FrameSpec.bytes, hext]
      rfl
    have hg3 : f.bytes.getD 3 0 = f.payload.length &&& wsp.BYTE := by
      rw [wsp.FrameSpec.bytes, hext]
      rfl
    have hpl : f.bytes.getD 2 0 * 256 + f.bytes.getD 3 0 = f.payload.length := by
      rw [hg2, hg3, show wsp.BYTE = 2 ^ 8 - 1 from rfl, Nat.and_pow_two_sub_one_eq_mod]
      omega
    simp only [hlf, show ((126 : Nat) == 126) = true from rfl,
      show ((126 : Nat) == 127) = false from rfl, Bool.false_eq_true, if_false, if_true,
      reduceIte, hpl]
    rcases hmc : f.masked with _ | _
    · simp only [hmc, Bool.false_eq_true, if_false]
      have hhl : f.headerLen = 4 := by
        unfold wsp.FrameSpec.headerLen
        rw [wsp.extBytes_length, if_neg hA, if_pos hsmall, hmc]
        simp
      have hw : (f.bytes.drop 4).take f.payload.length = f.payload := by
        rw [← hhl, wsp.bytes_drop_headerLen f hm4,
          List.take_of_length_le (le_of_eq (wsp.wireBody_length f))]
        unfold wsp.FrameSpec.wireBody
        rw [hmc]
        simp
      rw [hw]
      simp only [Nat.sub_self, List.replicate, List.append_nil]
      rw [show 0 + (f.payload.length + 4) = f.len from by
        unfold wsp.FrameSpec.len
        omega]
    · have hmask4 := hm4 hmc
      simp only [hmc, reduceIte]
      have hhl : f.headerLen = 8 := by
        unfold wsp.FrameSpec.headerLen
        rw [wsp.extBytes_length, if_neg hA, if_pos hsmall, hmc]
        simp
      have hmask : wsp.buf4 ((f.bytes.drop (4 + 4 - 4)).take 4) = f.mask := by
        have h := wsp.mask_extract_drop f hmask4 hmc
        rw [hhl] at h
        exact h
      have hw : (f.bytes.drop (4 + 4)).take f.payload.length =
          wsp.applyMask f.payload f.mask 0 := by
        rw [show (4 + 4 : Nat) = f.headerLen from by omega,
          wsp.bytes_drop_headerLen f hm4,
          List.take_of_length_le (le_of_eq (wsp.wireBody_length f))]
        unfold wsp.FrameSpec.wireBody
        rw [hmc]
        simp
      rw [hmask, hw]
      simp only [wsp.applyMask_length, Nat.sub_self, List.replicate, List.append_nil]
      rw [wsp.applyMask_applyMask]
      rw [show 0 + (f.payload.length + (4 + 4)) = f.len from by
        unfold wsp.FrameSpec.len
        omega]

/-- One unfolding step of the `done` driver loop. -/
theorem writeLoop_succ (fuel itr : Nat) (chunk : List Nat) (i : Nat) :
    writeLoop (fuel + 1) itr chunk i =
      match processChunk (itr + 1) chunk i with
      | PResult.fail e => ([], some e)
      | PResult.ok emits next =>
        if 0 < chunk.length - next then
          (emits ++ (writeLoop fuel (itr + 1) chunk next).1,
            (writeLoop fuel (itr + 1) chunk next).2)
        else (emits, none) := rfl

end Proto

namespace Proto

/-- C9 (amended): in the first `Rfc6455Protocol.js` decoder iteration, a
**final** valid frame with a payload of at most 65535 bytes produces a
listener notification exactly when its opcode is TEXT, PING or CLOSE;
BINARY, PONG and final CONTINUATION frames are consumed silently.  (A
non-final CONTINUATION frame is *not* consumed: see the counterexample.) -/
theorem C9_opcode_filter (f : wsp.FrameSpec) (hf : f.Valid) (hfin : f.fin = true)
    (hsmall : f.payload.length ≤ 65535) :
    write f.bytes =
      ((if f.opcode = 1 ∨ f.opcode = 9 ∨ f.opcode = 8 then [(f.opcode, f.payload)] else []),
        none) := by
  have hbl : f.bytes.length = f.len := wsp.bytes_length f (fun h => (hf.2.2.1 h).1)
  unfold write
  rw [show (102 : Nat) = 101 + 1 from rfl, writeLoop_succ,
    processChunk_frame f hf hfin hsmall (0 + 1) (by omega)]
  simp only []
  rw [if_neg (by rw [hbl]; omega)]

/-- C9, counterexample: a non-final CONTINUATION frame is not "parsed and
consumed with no notification" — `processChunk` resumes at its payload
offset, so the payload bytes are re-parsed as frames; here the payload of
the CONTINUATION frame is itself emitted as a TEXT notification. -/
theorem C9_counterexample :
    wsp.FrameSpec.bytes ⟨false, 0, false, [], [129, 1, 65]⟩ = [0, 3, 129, 1, 65] ∧
    write (wsp.FrameSpec.bytes ⟨false, 0, false, [], [129, 1, 65]⟩) = ([(1, [65])], none) := by
  decide

/-- Witness for C9: a one-byte final BINARY frame is consumed with no
notification and no error. -/
theorem C9_witness :
    write (wsp.FrameSpec.bytes ⟨true, 2, false, [], [7]⟩) = ([], none) :=
  C9_opcode_filter ⟨true, 2, false, [], [7]⟩ (by decide) rfl (by decide)

end Proto
